import Mathlib

/-!
# TextHandler: alignment of a batch of text lines

A shallow embedding of `src/functions.c` (`Right`, `Center`, `Justify`) and of the
alignment `switch` of `src/main.c`.

Modelling conventions.

* A C string is the list of its bytes before the terminating NUL (`Line`); `strlen` is
  `List.length`.
* The argument `char **str` is a NULL-terminated array of strings; it is embedded as the
  list of the strings before the NULL slot.
* Each function overwrites the slots of the array in place, one slot per iteration, and
  the width is computed before the first slot is overwritten; the embedding returns the
  final contents of the array.
* A run that leaves the defined behaviour of C ends in a `Fault`: reading the string of
  the NULL slot (`strlen(str[0])` on an array with no string), storing outside the
  `max_length + 1` bytes of a freshly allocated `padded_str`, or overflowing an `int`
  loop counter.
* Machine integers: `size_t` is 64 bits wide and its arithmetic is modulo `2^64`
  (`sizeSub`); `int` is 32 bits wide; a `size_t` value stored in an `int` keeps its low
  32 bits in two's complement (`intOfSize`); an `int` used as a `size_t` is taken modulo
  `2^64` (`sizeOfInt`); `/` and `%` on `int` truncate toward zero (`Int.tdiv`,
  `Int.tmod`).  String lengths themselves are natural numbers.
* The loop counters `i`, `j`, `k` and `str_words` are `int`: an increment past `INT_MAX`
  is a `Fault`.  The index `i` over the slots is followed in the first pass, which sees
  every slot before the second loop starts.
* `malloc` is taken to succeed.
* `main` hands its array `par` to the functions without a NULL slot after the lines read;
  `mainPrinted` therefore gives the callee the lines read, the untouched preallocated
  buffers, and whatever follows the array up to the first NULL word.
-/

namespace TextHandler

/-- A line of text: the bytes of a C string before its terminating NUL. -/
abbrev Line := List Char

/-- The ways a run can leave defined behaviour. -/
inductive Fault where
  /-- The string of a NULL slot was read (`strlen(str[0])` with `str[0] == NULL`). -/
  | nullRead
  /-- A byte was stored outside the allocated `padded_str`. -/
  | overrun
  /-- An `int` counter was incremented past `INT_MAX`. -/
  | intOverflow
  deriving DecidableEq, Repr

deriving instance DecidableEq for Except

/-! ## The machine integers -/

/-- The number of values of `size_t` (64-bit). -/
def SIZE_MOD : Nat := 2 ^ 64

/-- Subtraction of two `size_t` values, as the machine does it: modulo `SIZE_MOD`. -/
def sizeSub (a b : Nat) : Nat := (a + SIZE_MOD - b % SIZE_MOD) % SIZE_MOD

/-- Conversion of a `size_t` value to a 32-bit `int`: the low 32 bits, read as two's
complement. -/
def intOfSize (a : Nat) : Int :=
  if a % 2 ^ 32 < 2 ^ 31 then ((a % 2 ^ 32 : Nat) : Int)
  else ((a % 2 ^ 32 : Nat) : Int) - 2 ^ 32

/-- Conversion of an `int` to `size_t`: the value modulo `SIZE_MOD`. -/
def sizeOfInt (x : Int) : Nat := (x % (SIZE_MOD : Int)).toNat

/-- The value `int space_counter = max_length - current_length` of `Right` and `Justify`
on the machine. -/
def spaceCounter (max_length current_length : Nat) : Int :=
  intOfSize (sizeSub max_length current_length)

/-! ## The first pass: `max_length` -/

/-- The loop `for (i = 1; str[i] != NULL; ++i)` that raises `max_length` to the length of
every later string that is longer, from the slot `i` on.  The index `i` is an `int`: `++i`
after the slot `2^31 - 1` passes `INT_MAX`. -/
def maxLengthLoop (i : Nat) (max_length : Nat) : List Line → Except Fault Nat
  | [] => .ok max_length
  | s :: rest =>
    let current_length := s.length
    if i + 1 ≥ 2 ^ 31 then .error .intOverflow
    else
      maxLengthLoop (i + 1)
        (if current_length > max_length then current_length else max_length) rest

/-- The first pass shared by `Right`, `Center` and `Justify`:
`max_length = strlen(str[0])` followed by the loop over `str[1..]`.  The second loop of
each function runs `i` over the same slots, so its `i` stays in range once the first pass
has ended. -/
def firstPass : List Line → Except Fault Nat
  | [] => .error .nullRead
  | s :: rest => maxLengthLoop 1 s.length rest

/-! ## `Right` -/

/-- One iteration of the second loop of `Right`.  `space_counter` is an `int`; `memset`
takes it as a `size_t` count and stores that many spaces from index `0`; `strcpy` stores
the line and its NUL from index `space_counter`.  Both must stay inside the
`max_length + 1` bytes of `padded_str`. -/
def rightLine (max_length : Nat) (s : Line) : Except Fault Line :=
  let current_length := s.length
  let space_counter := spaceCounter max_length current_length
  let count := sizeOfInt space_counter
  if count > max_length + 1 then .error .overrun
  else if count + current_length + 1 > max_length + 1 then .error .overrun
  else .ok (List.replicate count ' ' ++ s)

/-- The second loop of `Right` over the slots of the array. -/
def rightLoop (max_length : Nat) : List Line → Except Fault (List Line)
  | [] => .ok []
  | s :: rest =>
    match rightLine max_length s with
    | .error e => .error e
    | .ok padded_str =>
      match rightLoop max_length rest with
      | .error e => .error e
      | .ok out => .ok (padded_str :: out)

/-- The function `Right` of `functions.c`. -/
def Right (str : List Line) : Except Fault (List Line) :=
  match firstPass str with
  | .error e => .error e
  | .ok max_length => rightLoop max_length str

/-! ## `Center` -/

/-- One iteration of the second loop of `Center`.  `space_counter` is the `int` made of
the `size_t` quotient `(max_length - current_length) / 2`; the first `memset` stores that
many spaces, `strcpy` the line and its NUL, the second `memset` stores
`max_length - current_length - space_counter` spaces (a `size_t` value) after the line,
and the NUL stored at index `max_length` ends the string there. -/
def centerLine (max_length : Nat) (s : Line) : Except Fault Line :=
  let current_length := s.length
  let space_counter := intOfSize (sizeSub max_length current_length / 2)
  let left := sizeOfInt space_counter
  if left > max_length + 1 then .error .overrun
  else if left + current_length + 1 > max_length + 1 then .error .overrun
  else
    let right := sizeSub (sizeSub max_length current_length) left
    if left + current_length + right > max_length + 1 then .error .overrun
    else
      .ok ((List.replicate left ' ' ++ s ++ List.replicate right ' ').take max_length)

/-- The second loop of `Center` over the slots of the array. -/
def centerLoop (max_length : Nat) : List Line → Except Fault (List Line)
  | [] => .ok []
  | s :: rest =>
    match centerLine max_length s with
    | .error e => .error e
    | .ok padded_str =>
      match centerLoop max_length rest with
      | .error e => .error e
      | .ok out => .ok (padded_str :: out)

/-- The function `Center` of `functions.c`. -/
def Center (str : List Line) : Except Fault (List Line) :=
  match firstPass str with
  | .error e => .error e
  | .ok max_length => centerLoop max_length str

/-! ## `Justify` -/

/-- The loop that counts the space characters of a line into `str_words`. -/
def countLoop (str_words : Nat) : Line → Nat
  | [] => str_words
  | c :: cs => countLoop (if c = ' ' then str_words + 1 else str_words) cs

/-- The value of `str_words` after `str_words++`: one more than the number of space
characters the count loop saw. -/
def strWords (s : Line) : Nat := countLoop 0 s + 1

/-- The value the `int space_add` gets in "Compute spaces needed". -/
def spaceAdd (max_length : Nat) (s : Line) : Int :=
  let space_counter := spaceCounter max_length s.length
  if strWords s > 1 then Int.tdiv space_counter ((strWords s - 1 : Nat) : Int)
  else space_counter

/-- The value the `int space_rem` gets in "Compute spaces needed". -/
def spaceRem (max_length : Nat) (s : Line) : Int :=
  let space_counter := spaceCounter max_length s.length
  if strWords s > 1 then Int.tmod space_counter ((strWords s - 1 : Nat) : Int)
  else 0

/-- The loop "Justify the line": every character of the line is stored at
`padded_str[new_space++]`, and a space character is followed by `spaces` more spaces,
where the `size_t spaces` is `space_add`, one more while `space_rem` is positive.  The
stores are consecutive from index `0`, so the buffer is carried as the list `padded` of
the bytes stored so far (`new_space` is its length); a store at an index above
`max_length` is outside the buffer.  The inner counter `k` is an `int`: after `2^31`
stores `++k` passes `INT_MAX`, so of a run of `spaces` stores at most the first `2^31`
are made; the run is an overrun when one of these leaves the buffer, and an `int`
overflow when they fit and `spaces` asks for more.  Returns the bytes stored and the
final `space_rem`. -/
def justifyWalk (max_length : Nat) (space_add : Int) :
    Line → List Char → Int → Except Fault (List Char × Int)
  | [], padded, space_rem => .ok (padded, space_rem)
  | c :: cs, padded, space_rem =>
    if padded.length > max_length then .error .overrun
    else if c = ' ' then
      let spaces :=
        if space_rem > 0 then (sizeOfInt space_add + 1) % SIZE_MOD else sizeOfInt space_add
      if padded.length + 1 + min spaces (2 ^ 31) > max_length + 1 then .error .overrun
      else if spaces ≥ 2 ^ 31 then .error .intOverflow
      else
        justifyWalk max_length space_add cs ((padded ++ [c]) ++ List.replicate spaces ' ')
          (if space_rem > 0 then space_rem - 1 else space_rem)
    else
      justifyWalk max_length space_add cs (padded ++ [c]) space_rem

/-- The bytes the loop "Justify the line" has stored in `padded_str` when it ends;
`new_space` is then the length of this list. -/
def walkStores (max_length : Nat) (s : Line) : Except Fault (List Char) :=
  match justifyWalk max_length (spaceAdd max_length s) s [] (spaceRem max_length s) with
  | .error e => .error e
  | .ok (walked, _) => .ok walked

/-- The number of iterations of `while (new_space < max_length)` after a walk that
stored `walked`. -/
def trailingPad (max_length : Nat) (walked : List Char) : Nat :=
  max_length - walked.length

/-- One iteration of the second loop of `Justify`.  A line at least `max_length` long is
skipped (the slot keeps its string).  Otherwise the `int` counter `j` runs over the line
twice and `str_words` counts its space characters, which they can do only below `2^31`;
the walk fills `padded_str`, the `while` loop pads it with spaces up to `max_length`, and
the NUL stored at index `max_length` ends the string there. -/
def justifyLine (max_length : Nat) (s : Line) : Except Fault Line :=
  let current_length := s.length
  if current_length ≥ max_length then .ok s
  else if current_length ≥ 2 ^ 31 then .error .intOverflow
  else if strWords s ≥ 2 ^ 31 then .error .intOverflow
  else
    match walkStores max_length s with
    | .error e => .error e
    | .ok walked =>
      .ok ((walked ++ List.replicate (trailingPad max_length walked) ' ').take max_length)

/-- The second loop of `Justify` over the slots of the array. -/
def justifyLoop (max_length : Nat) : List Line → Except Fault (List Line)
  | [] => .ok []
  | s :: rest =>
    match justifyLine max_length s with
    | .error e => .error e
    | .ok padded_str =>
      match justifyLoop max_length rest with
      | .error e => .error e
      | .ok out => .ok (padded_str :: out)

/-- The function `Justify` of `functions.c`. -/
def Justify (str : List Line) : Except Fault (List Line) :=
  match firstPass str with
  | .error e => .error e
  | .ok max_length => justifyLoop max_length str

/-- The loop "Justify the line" with its stores left out: the values the `size_t`
variable `spaces` takes, one for each space character of the line, in the order of the
walk. -/
def walkGaps (space_add : Int) : Line → Int → List Nat
  | [], _ => []
  | c :: cs, space_rem =>
    if c = ' ' then
      (if space_rem > 0 then (sizeOfInt space_add + 1) % SIZE_MOD
        else sizeOfInt space_add) ::
        walkGaps space_add cs (if space_rem > 0 then space_rem - 1 else space_rem)
    else
      walkGaps space_add cs space_rem

/-! ## The `switch` of `main` -/

/-- What the `switch (choice)` of `main` leaves behind: whether the line
`Invalid choice.` was printed, and the contents of the array. -/
structure Switched where
  invalidReported : Bool
  par : List Line
  deriving DecidableEq, Repr

/-- The `switch (choice)` of `main.c`, applied to the array the callee sees. -/
def alignSwitch (choice : Int) (par : List Line) : Except Fault Switched :=
  if choice = 1 then .ok ⟨false, par⟩
  else if choice = 2 then
    match Right par with
    | .error e => .error e
    | .ok out => .ok ⟨false, out⟩
  else if choice = 3 then
    match Center par with
    | .error e => .error e
    | .ok out => .ok ⟨false, out⟩
  else if choice = 4 then
    match Justify par with
    | .error e => .error e
    | .ok out => .ok ⟨false, out⟩
  else .ok ⟨true, par⟩

/-! ## `main`: from the array to the printed lines -/

/-- The number of slots `main` allocates for `par`. -/
def MAX_LINES : Nat := 100

/-- The part of `main` after the lines are read.  `read` is the list of the `line_count`
lines stored in the first slots of `par`; `unused` is the list of the strings that the
other preallocated buffers `par[line_count .. MAX_LINES-1]` hold, which `main` never
writes; `pastEnd` is the list of the strings that the words after the last slot point to,
up to the first NULL word.  `main` stores no NULL in `par`, so the function the `switch`
calls walks all of these.  The print loop prints the first `line_count` slots. -/
def mainPrinted (choice : Int) (read unused pastEnd : List Line) :
    Except Fault (List Line) :=
  match alignSwitch choice (read ++ unused ++ pastEnd) with
  | .error e => .error e
  | .ok r => .ok (r.par.take read.length)

/-- A line with its `k`-th space character followed by `gaps[k]` more spaces: the stores
of the walk rebuilt from the values of `spaces`. -/
def fillGaps : Line → List Nat → Line
  | [], _ => []
  | c :: cs, [] => c :: fillGaps cs []
  | c :: cs, g :: gs =>
    if c = ' ' then c :: (List.replicate g ' ' ++ fillGaps cs gs)
    else c :: fillGaps cs (g :: gs)

/-! ## Vocabulary of the specification -/

/-- TargetWidth as the specification words it: the maximum of the lengths of the lines
(`0` for no line). -/
def TargetWidth (lines : List Line) : Nat :=
  (lines.map List.length).foldr max 0

/-- The distribution of Justify as the specification words it: walk the line left to
right, copy every character that is not a space, and replace the `k`-th space character
(counted from `0`) by `1 + baseGap` spaces, one more when `k < extraGaps`. -/
def distribute (baseGap extraGaps : Nat) : Nat → Line → Line
  | _, [] => []
  | k, c :: cs =>
    if c = ' ' then
      List.replicate (1 + baseGap + (if k < extraGaps then 1 else 0)) ' ' ++
        distribute baseGap extraGaps (k + 1) cs
    else c :: distribute baseGap extraGaps k cs

/-- A run of `n` space characters. -/
def spaces (n : Nat) : Line := List.replicate n ' '

/-- The string `Justify` leaves in a slot, in the words of the specification: a line at
least `W` long is kept; a line without a space character gets all its padding at the end;
any other line has its deficit distributed over its space characters. -/
def justified (W : Nat) (s : Line) : Line :=
  if W ≤ s.length then s
  else if s.count ' ' = 0 then s ++ spaces (W - s.length)
  else distribute ((W - s.length) / s.count ' ') ((W - s.length) % s.count ' ') 0 s

/-- The string the mode selected by `choice` leaves in one slot of an array whose first
pass gave `max_length`: the loop body of the function the `switch` calls, and the slot
itself when no function is called. -/
def slotOf (choice : Int) (max_length : Nat) (s : Line) : Except Fault Line :=
  if choice = 2 then rightLine max_length s
  else if choice = 3 then centerLine max_length s
  else if choice = 4 then justifyLine max_length s
  else .ok s

/-- A line of `n` letters `a`. -/
def letters (n : Nat) : Line := List.replicate n 'a'

/-- An array of `n` empty lines. -/
def emptyLines (n : Nat) : List Line := List.replicate n []


/-! ## Lemmas on the machine integers -/

theorem sizeOfInt_natCast (a : Nat) (h : a < SIZE_MOD) : sizeOfInt (a : Int) = a := by
  simp only [sizeOfInt, SIZE_MOD] at *
  omega

theorem sizeSub_of_le (a b : Nat) (ha : a < SIZE_MOD) (hb : b ≤ a) :
    sizeSub a b = a - b := by
  simp only [sizeSub, SIZE_MOD] at *
  omega

theorem intOfSize_of_small (a : Nat) (ha : a < 2 ^ 31) : intOfSize a = (a : Int) := by
  have h1 : a % 2 ^ 32 = a := Nat.mod_eq_of_lt (by omega)
  simp only [intOfSize, h1, ha, if_true]

theorem spaceCounter_of_le (a b : Nat) (ha : a < 2 ^ 31) (hb : b ≤ a) :
    spaceCounter a b = ((a - b : Nat) : Int) := by
  have hM : a < SIZE_MOD := by simp only [SIZE_MOD]; omega
  rw [spaceCounter, sizeSub_of_le a b hM hb]
  exact intOfSize_of_small _ (by omega)

theorem small_lt_SIZE_MOD (a : Nat) (ha : a < 2 ^ 31) : a < SIZE_MOD := by
  simp only [SIZE_MOD]; omega

/-! ## Lemmas on the first pass -/

theorem TargetWidth_nil : TargetWidth [] = 0 := rfl

theorem TargetWidth_cons (s : Line) (rest : List Line) :
    TargetWidth (s :: rest) = max s.length (TargetWidth rest) := rfl

theorem maxLengthLoop_eq (rest : List Line) :
    ∀ i m : Nat, i + rest.length < 2 ^ 31 →
      maxLengthLoop i m rest = .ok (max m (TargetWidth rest)) := by
  induction rest with
  | nil => intro i m _; simp [maxLengthLoop, TargetWidth_nil]
  | cons s rest ih =>
    intro i m hi
    simp only [List.length_cons] at hi
    have h1 : ¬ (i + 1 ≥ 2 ^ 31) := by omega
    rw [maxLengthLoop]
    simp only [h1, if_false]
    rw [ih (i + 1) _ (by omega), TargetWidth_cons]
    congr 1
    split <;> omega

theorem maxLengthLoop_ok (rest : List Line) :
    ∀ i m W : Nat, maxLengthLoop i m rest = .ok W → W = max m (TargetWidth rest) := by
  induction rest with
  | nil =>
    intro i m W h
    simp only [maxLengthLoop, Except.ok.injEq] at h
    simp [TargetWidth_nil, h]
  | cons s rest ih =>
    intro i m W h
    rw [maxLengthLoop] at h
    by_cases h1 : i + 1 ≥ 2 ^ 31
    · simp only [h1, if_true] at h
      cases h
    · simp only [h1, if_false] at h
      rw [ih _ _ W h, TargetWidth_cons]
      split <;> omega

theorem maxLengthLoop_many (rest : List Line) :
    ∀ i m : Nat, i < 2 ^ 31 → i + rest.length ≥ 2 ^ 31 →
      maxLengthLoop i m rest = .error .intOverflow := by
  induction rest with
  | nil =>
    intro i m hi hn
    simp only [List.length_nil] at hn
    omega
  | cons s rest ih =>
    intro i m hi hn
    simp only [List.length_cons] at hn
    rw [maxLengthLoop]
    by_cases h1 : i + 1 ≥ 2 ^ 31
    · simp only [h1, if_true]
    · simp only [h1, if_false]
      exact ih (i + 1) _ (by omega) (by omega)

theorem firstPass_eq (lines : List Line) (h : lines ≠ [])
    (hcount : lines.length < 2 ^ 31) :
    firstPass lines = .ok (TargetWidth lines) := by
  cases lines with
  | nil => exact absurd rfl h
  | cons s rest =>
    simp only [List.length_cons] at hcount
    rw [firstPass, maxLengthLoop_eq rest 1 s.length (by omega), TargetWidth_cons]

theorem firstPass_ok (lines : List Line) (W : Nat) (h : firstPass lines = .ok W) :
    W = TargetWidth lines := by
  cases lines with
  | nil => cases h
  | cons s rest =>
    rw [firstPass] at h
    rw [maxLengthLoop_ok rest 1 s.length W h, TargetWidth_cons]

theorem firstPass_many (lines : List Line) (h : lines.length ≥ 2 ^ 31) :
    firstPass lines = .error .intOverflow := by
  cases lines with
  | nil =>
    simp only [List.length_nil] at h
    omega
  | cons s rest =>
    simp only [List.length_cons] at h
    rw [firstPass]
    exact maxLengthLoop_many rest 1 s.length (by omega) (by omega)

theorem length_le_TargetWidth (lines : List Line) :
    ∀ s ∈ lines, s.length ≤ TargetWidth lines := by
  induction lines with
  | nil => intro s hs; cases hs
  | cons t rest ih =>
    intro s hs
    rw [TargetWidth_cons]
    rcases List.mem_cons.mp hs with rfl | hmem
    · exact Nat.le_max_left _ _
    · exact Nat.le_trans (ih s hmem) (Nat.le_max_right _ _)

theorem TargetWidth_attained (lines : List Line) (h : lines ≠ []) :
    ∃ s ∈ lines, s.length = TargetWidth lines := by
  induction lines with
  | nil => exact absurd rfl h
  | cons t rest ih =>
    rw [TargetWidth_cons]
    by_cases hr : rest = []
    · subst hr
      exact ⟨t, List.mem_cons_self _ _, by simp [TargetWidth_nil]⟩
    · obtain ⟨u, hu, hlen⟩ := ih hr
      by_cases hle : TargetWidth rest ≤ t.length
      · exact ⟨t, List.mem_cons_self _ _, by omega⟩
      · exact ⟨u, List.mem_cons_of_mem _ hu, by omega⟩

theorem TargetWidth_lt (lines : List Line) (h : lines ≠ []) (B : Nat)
    (hB : ∀ s ∈ lines, s.length < B) : TargetWidth lines < B := by
  obtain ⟨s, hs, hlen⟩ := TargetWidth_attained lines h
  rw [← hlen]
  exact hB s hs

/-! ## The second loops as maps -/

theorem rightLine_eq (W : Nat) (s : Line) (h : s.length ≤ W) (hW : W < 2 ^ 31) :
    rightLine W s = .ok (spaces (W - s.length) ++ s) := by
  have hc : sizeOfInt (spaceCounter W s.length) = W - s.length := by
    rw [spaceCounter_of_le W s.length hW h]
    exact sizeOfInt_natCast _ (small_lt_SIZE_MOD _ (by omega))
  have h1 : ¬ (W - s.length > W + 1) := by omega
  have h2 : ¬ (W - s.length + s.length + 1 > W + 1) := by omega
  simp only [rightLine, hc, h1, h2, if_false, spaces]

theorem centerLine_eq (W : Nat) (s : Line) (h : s.length ≤ W) (hW : W < 2 ^ 31) :
    centerLine W s =
      .ok (spaces ((W - s.length) / 2) ++ s ++ spaces (W - s.length - (W - s.length) / 2)) := by
  have hM := small_lt_SIZE_MOD W hW
  have hd : sizeSub W s.length = W - s.length := sizeSub_of_le W s.length hM h
  have hl : sizeOfInt (intOfSize ((W - s.length) / 2)) = (W - s.length) / 2 := by
    rw [intOfSize_of_small _ (by omega)]
    exact sizeOfInt_natCast _ (small_lt_SIZE_MOD _ (by omega))
  have hr : sizeSub (W - s.length) ((W - s.length) / 2) =
      W - s.length - (W - s.length) / 2 :=
    sizeSub_of_le _ _ (small_lt_SIZE_MOD _ (by omega)) (by omega)
  have h1 : ¬ ((W - s.length) / 2 > W + 1) := by omega
  have h2 : ¬ ((W - s.length) / 2 + s.length + 1 > W + 1) := by omega
  have h3 : ¬ ((W - s.length) / 2 + s.length + (W - s.length - (W - s.length) / 2) >
      W + 1) := by omega
  simp only [centerLine, hd, hl, hr, h1, h2, h3, if_false, spaces]
  rw [List.take_of_length_le]
  simp only [List.length_append, List.length_replicate]
  omega

theorem rightLoop_eq (W : Nat) (lines : List Line) (h : ∀ s ∈ lines, s.length ≤ W)
    (hW : W < 2 ^ 31) :
    rightLoop W lines = .ok (lines.map fun s => spaces (W - s.length) ++ s) := by
  induction lines with
  | nil => rfl
  | cons s rest ih =>
    have hs := h s (List.mem_cons_self _ _)
    have hr := ih fun t ht => h t (List.mem_cons_of_mem _ ht)
    simp [rightLoop, rightLine_eq W s hs hW, hr]

theorem centerLoop_eq (W : Nat) (lines : List Line) (h : ∀ s ∈ lines, s.length ≤ W)
    (hW : W < 2 ^ 31) :
    centerLoop W lines = .ok (lines.map fun s =>
      spaces ((W - s.length) / 2) ++ s ++ spaces (W - s.length - (W - s.length) / 2)) := by
  induction lines with
  | nil => rfl
  | cons s rest ih =>
    have hs := h s (List.mem_cons_self _ _)
    have hr := ih fun t ht => h t (List.mem_cons_of_mem _ ht)
    simp [centerLoop, centerLine_eq W s hs hW, hr]

theorem Right_eq (lines : List Line) (h : lines ≠ []) (hcount : lines.length < 2 ^ 31)
    (hsmall : ∀ s ∈ lines, s.length < 2 ^ 31) :
    Right lines =
      .ok (lines.map fun s => spaces (TargetWidth lines - s.length) ++ s) := by
  simp [Right, firstPass_eq lines h hcount,
    rightLoop_eq _ lines (length_le_TargetWidth lines) (TargetWidth_lt lines h _ hsmall)]

theorem Center_eq (lines : List Line) (h : lines ≠ []) (hcount : lines.length < 2 ^ 31)
    (hsmall : ∀ s ∈ lines, s.length < 2 ^ 31) :
    Center lines = .ok (lines.map fun s =>
      spaces ((TargetWidth lines - s.length) / 2) ++ s ++
        spaces (TargetWidth lines - s.length - (TargetWidth lines - s.length) / 2)) := by
  simp [Center, firstPass_eq lines h hcount,
    centerLoop_eq _ lines (length_le_TargetWidth lines) (TargetWidth_lt lines h _ hsmall)]

/-! ## Lemmas on `Justify` -/

theorem countLoop_eq (s : Line) : ∀ n : Nat, countLoop n s = n + s.count ' ' := by
  induction s with
  | nil => intro n; simp [countLoop]
  | cons c cs ih =>
    intro n
    rw [countLoop, ih]
    by_cases hc : c = ' '
    · subst hc; simp; omega
    · have hc' : (' ' : Char) ≠ c := fun h => hc h.symm
      simp [hc, List.count_cons_of_ne hc']

theorem distribute_length (baseGap extraGaps : Nat) (s : Line) :
    ∀ k : Nat, (distribute baseGap extraGaps k s).length =
      s.length + s.count ' ' * baseGap + min (extraGaps - k) (s.count ' ') := by
  induction s with
  | nil => intro k; simp [distribute]
  | cons c cs ih =>
    intro k
    by_cases hc : c = ' '
    · subst hc
      simp only [distribute, if_true, List.length_append, List.length_replicate, ih,
        List.length_cons, List.count_cons_self, Nat.add_mul, Nat.one_mul]
      split <;> omega
    · have hc' : (' ' : Char) ≠ c := fun h => hc h.symm
      simp only [distribute, hc, if_false, List.length_cons, ih, List.count_cons_of_ne hc']
      omega

theorem distribute_no_space (baseGap extraGaps : Nat) (s : Line) (h : s.count ' ' = 0) :
    ∀ k : Nat, distribute baseGap extraGaps k s = s := by
  induction s with
  | nil => intro k; rfl
  | cons c cs ih =>
    intro k
    by_cases hc : c = ' '
    · subst hc; simp at h
    · have hc' : (' ' : Char) ≠ c := fun h => hc h.symm
      rw [List.count_cons_of_ne hc'] at h
      simp [distribute, hc, ih h]

theorem distribute_fill_length (W : Nat) (s : Line) (hlen : s.length < W)
    (hc : s.count ' ' ≠ 0) :
    (distribute ((W - s.length) / s.count ' ') ((W - s.length) % s.count ' ') 0 s).length
      = W := by
  have hpos : 0 < s.count ' ' := Nat.pos_of_ne_zero hc
  have hmod : (W - s.length) % s.count ' ' < s.count ' ' := Nat.mod_lt _ hpos
  have hdiv := Nat.div_add_mod (W - s.length) (s.count ' ')
  rw [distribute_length, Nat.sub_zero, Nat.min_eq_left (Nat.le_of_lt hmod)]
  omega

theorem strWords_eq (s : Line) : strWords s = s.count ' ' + 1 := by
  simp only [strWords, countLoop_eq, Nat.zero_add]

theorem justifyWalk_no_space (W : Nat) (space_add : Int) (s : Line)
    (hc : s.count ' ' = 0) :
    ∀ (padded : List Char) (space_rem : Int), padded.length + s.length ≤ W + 1 →
      justifyWalk W space_add s padded space_rem = .ok (padded ++ s, space_rem) := by
  induction s with
  | nil => intro padded space_rem _; simp [justifyWalk]
  | cons c cs ih =>
    intro padded space_rem hfit
    have hne : c ≠ ' ' := by
      intro h
      subst h
      simp at hc
    have hc' : (' ' : Char) ≠ c := fun h => hne h.symm
    rw [List.count_cons_of_ne hc'] at hc
    simp only [List.length_cons] at hfit
    have hlen : ¬ (padded.length > W) := by omega
    have hfit' : (padded ++ [c]).length + cs.length ≤ W + 1 := by
      simp only [List.length_append, List.length_cons, List.length_nil]
      omega
    rw [justifyWalk]
    simp only [hlen, hne, if_false]
    rw [ih hc (padded ++ [c]) space_rem hfit']
    simp

theorem justifyWalk_ok (W a E : Nat) (ha : a + 1 < 2 ^ 31) (s : Line) :
    ∀ (padded : List Char) (k : Nat),
      padded.length + (distribute a E k s).length ≤ W + 1 →
      ∃ r, justifyWalk W (a : Int) s padded ((E - k : Nat) : Int) =
        .ok (padded ++ distribute a E k s, r) := by
  have hsz : sizeOfInt (a : Int) = a := sizeOfInt_natCast a (small_lt_SIZE_MOD a (by omega))
  have hsz1 : (a + 1) % SIZE_MOD = a + 1 :=
    Nat.mod_eq_of_lt (small_lt_SIZE_MOD (a + 1) ha)
  induction s with
  | nil => intro padded k _; exact ⟨((E - k : Nat) : Int), by simp [justifyWalk, distribute]⟩
  | cons c cs ih =>
    intro padded k hfit
    by_cases hc : c = ' '
    · subst hc
      by_cases hk : k < E
      · have hpos : ((E - k : Nat) : Int) > 0 := by omega
        have hrem : ((E - k : Nat) : Int) - 1 = ((E - (k + 1) : Nat) : Int) := by omega
        have hn : 1 + a + 1 = (a + 1) + 1 := by omega
        simp only [distribute, if_true, hk, List.length_append, List.length_replicate]
          at hfit
        have h1 : ¬ (padded.length > W) := by omega
        have h2 : ¬ (padded.length + 1 + (a + 1) > W + 1) := by omega
        have h3 : ¬ (a + 1 ≥ 2 ^ 31) := by omega
        obtain ⟨r, hr⟩ := ih ((padded ++ [' ']) ++ List.replicate (a + 1) ' ') (k + 1)
          (by simp only [List.length_append, List.length_replicate, List.length_cons,
            List.length_nil]; omega)
        refine ⟨r, ?_⟩
        have hmin : min (a + 1) (2 ^ 31) = a + 1 := Nat.min_eq_left (Nat.le_of_lt ha)
        rw [justifyWalk]
        simp only [h1, if_false, if_true, hpos, hsz, hsz1, hmin, h2, h3, hrem, hr,
          distribute, hk, hn]
        simp [List.replicate_succ]
      · have hpos : ¬ (((E - k : Nat) : Int) > 0) := by omega
        have hrem : ((E - k : Nat) : Int) = ((E - (k + 1) : Nat) : Int) := by omega
        have hn : 1 + a + 0 = a + 1 := by omega
        simp only [distribute, if_true, if_false, hk, List.length_append,
          List.length_replicate] at hfit
        have h1 : ¬ (padded.length > W) := by omega
        have h2 : ¬ (padded.length + 1 + a > W + 1) := by omega
        have h3 : ¬ (a ≥ 2 ^ 31) := by omega
        obtain ⟨r, hr⟩ := ih ((padded ++ [' ']) ++ List.replicate a ' ') (k + 1)
          (by simp only [List.length_append, List.length_replicate, List.length_cons,
            List.length_nil]; omega)
        refine ⟨r, ?_⟩
        have hmin : min a (2 ^ 31) = a := Nat.min_eq_left (Nat.le_of_lt (Nat.lt_of_succ_lt ha))
        rw [justifyWalk]
        simp only [h1, if_false, if_true, hpos, hsz, hmin, h2, h3]
        rw [hrem, hr]
        simp only [distribute, if_true, if_false, hk, hn]
        simp [List.replicate_succ]
    · simp only [distribute, hc, if_false, List.length_cons] at hfit
      have h1 : ¬ (padded.length > W) := by omega
      obtain ⟨r, hr⟩ := ih (padded ++ [c]) k
        (by simp only [List.length_append, List.length_cons, List.length_nil]; omega)
      refine ⟨r, ?_⟩
      rw [justifyWalk]
      simp only [h1, hc, if_false, hr, distribute]
      simp

theorem spaceAdd_eq (W : Nat) (s : Line) (hlen : s.length < W) (hW : W < 2 ^ 31)
    (hc : s.count ' ' ≠ 0) :
    spaceAdd W s = (((W - s.length) / s.count ' ' : Nat) : Int) := by
  have hgt : s.count ' ' + 1 > 1 := by omega
  simp only [spaceAdd, strWords_eq, hgt, if_true, Nat.add_sub_cancel,
    spaceCounter_of_le W s.length hW (Nat.le_of_lt hlen)]
  exact (Int.ofNat_tdiv _ _).symm

theorem spaceRem_eq (W : Nat) (s : Line) (hlen : s.length < W) (hW : W < 2 ^ 31)
    (hc : s.count ' ' ≠ 0) :
    spaceRem W s = (((W - s.length) % s.count ' ' : Nat) : Int) := by
  have hgt : s.count ' ' + 1 > 1 := by omega
  simp only [spaceRem, strWords_eq, hgt, if_true, Nat.add_sub_cancel,
    spaceCounter_of_le W s.length hW (Nat.le_of_lt hlen)]
  exact (Int.ofNat_tmod _ _).symm

theorem walkStores_eq (W : Nat) (s : Line) (hlen : s.length < W) (hW : W < 2 ^ 31)
    (hc : s.count ' ' ≠ 0) :
    walkStores W s =
      .ok (distribute ((W - s.length) / s.count ' ') ((W - s.length) % s.count ' ') 0 s) := by
  have hcl : s.count ' ' ≤ s.length := List.count_le_length _ _
  have hdiv : (W - s.length) / s.count ' ' ≤ W - s.length := Nat.div_le_self _ _
  have ha : (W - s.length) / s.count ' ' + 1 < 2 ^ 31 := by omega
  have hl := distribute_fill_length W s hlen hc
  obtain ⟨r, hr⟩ := justifyWalk_ok W ((W - s.length) / s.count ' ')
    ((W - s.length) % s.count ' ') ha s [] 0 (by rw [hl]; simp)
  rw [Nat.sub_zero, List.nil_append] at hr
  simp only [walkStores, spaceAdd_eq W s hlen hW hc, spaceRem_eq W s hlen hW hc, hr]

theorem walkStores_no_space (W : Nat) (s : Line) (hlen : s.length < W)
    (hc : s.count ' ' = 0) : walkStores W s = .ok s := by
  have h := justifyWalk_no_space W (spaceAdd W s) s hc [] (spaceRem W s)
    (by simp only [List.length_nil]; omega)
  simp only [walkStores, h, List.nil_append]

theorem walkStores_length (W : Nat) (s : Line) (hlen : s.length < W) (hW : W < 2 ^ 31)
    (hc : s.count ' ' ≠ 0) :
    ∃ walked, walkStores W s = .ok walked ∧ walked.length = W :=
  ⟨_, walkStores_eq W s hlen hW hc, distribute_fill_length W s hlen hc⟩

theorem justifyLine_eq (W : Nat) (s : Line) (hW : W < 2 ^ 31) :
    justifyLine W s = .ok (justified W s) := by
  unfold justifyLine justified
  by_cases h : W ≤ s.length
  · simp [h]
  · have hlt : s.length < W := Nat.lt_of_not_le h
    have hge : ¬ (s.length ≥ W) := h
    have hcl : s.count ' ' ≤ s.length := List.count_le_length _ _
    have hj : ¬ (s.length ≥ 2 ^ 31) := by omega
    have hw : ¬ (strWords s ≥ 2 ^ 31) := by rw [strWords_eq]; omega
    simp only [hge, h, hj, hw, if_false]
    by_cases hc : s.count ' ' = 0
    · simp only [walkStores_no_space W s hlt hc, hc, if_true, trailingPad, spaces]
      rw [List.take_of_length_le]
      simp only [List.length_append, List.length_replicate]
      omega
    · have hl := distribute_fill_length W s hlt hc
      simp only [walkStores_eq W s hlt hW hc, hc, if_false, trailingPad, hl, Nat.sub_self,
        List.replicate_zero, List.append_nil]
      rw [List.take_of_length_le (Nat.le_of_eq hl)]

theorem justifyLoop_eq (W : Nat) (lines : List Line) (hW : W < 2 ^ 31) :
    justifyLoop W lines = .ok (lines.map (justified W)) := by
  induction lines with
  | nil => rfl
  | cons s rest ih => simp [justifyLoop, justifyLine_eq W s hW, ih]

theorem Justify_eq (lines : List Line) (h : lines ≠ []) (hcount : lines.length < 2 ^ 31)
    (hsmall : ∀ s ∈ lines, s.length < 2 ^ 31) :
    Justify lines = .ok (lines.map (justified (TargetWidth lines))) := by
  simp [Justify, firstPass_eq lines h hcount, justifyLoop_eq _ lines (TargetWidth_lt lines h _ hsmall)]

theorem justified_length (W : Nat) (s : Line) (h : s.length ≤ W) :
    (justified W s).length = W := by
  unfold justified
  by_cases hW : W ≤ s.length
  · simp [hW]; omega
  · by_cases hc : s.count ' ' = 0
    · simp [hW, hc, spaces]; omega
    · simp only [hW, hc, if_false]
      exact distribute_fill_length W s (Nat.lt_of_not_le hW) hc

theorem getElem?_map_of_lt {α β : Type} (f : α → β) (l : List α) (i : Nat)
    (hi : i < l.length) : (l.map f)[i]? = some (f l[i]) := by
  simp [List.getElem?_map, List.getElem?_eq_getElem hi]

/-! ## The values of `spaces` along the walk -/

theorem fillGaps_cons_of_ne (c : Char) (cs : Line) (gaps : List Nat) (hc : c ≠ ' ') :
    fillGaps (c :: cs) gaps = c :: fillGaps cs gaps := by
  cases gaps with
  | nil => rfl
  | cons g gs => simp [fillGaps, hc]

theorem justifyWalk_fillGaps (W : Nat) (space_add : Int) (s : Line) :
    ∀ (padded : List Char) (space_rem : Int) (walked : List Char) (r : Int),
      justifyWalk W space_add s padded space_rem = .ok (walked, r) →
      walked = padded ++ fillGaps s (walkGaps space_add s space_rem) := by
  induction s with
  | nil =>
    intro padded space_rem walked r h
    simp only [justifyWalk, Except.ok.injEq, Prod.mk.injEq] at h
    simp [fillGaps, h.1]
  | cons c cs ih =>
    intro padded space_rem walked r h
    rw [justifyWalk] at h
    by_cases h1 : padded.length > W
    · simp only [h1, if_true] at h
      cases h
    · simp only [h1, if_false] at h
      by_cases hc : c = ' '
      · subst hc
        simp only [if_true] at h
        by_cases hr : space_rem > 0
        · simp only [hr, if_true] at h
          by_cases h2 : padded.length + 1 + min ((sizeOfInt space_add + 1) % SIZE_MOD) (2 ^ 31) >
              W + 1
          · simp only [h2, if_true] at h
            cases h
          · simp only [h2, if_false] at h
            by_cases h3 : (sizeOfInt space_add + 1) % SIZE_MOD ≥ 2 ^ 31
            · simp only [h3, if_true] at h
              cases h
            · simp only [h3, if_false] at h
              rw [ih _ _ walked r h]
              simp only [walkGaps, fillGaps, if_true, hr]
              simp
        · simp only [hr, if_false] at h
          by_cases h2 : padded.length + 1 + min (sizeOfInt space_add) (2 ^ 31) > W + 1
          · simp only [h2, if_true] at h
            cases h
          · simp only [h2, if_false] at h
            by_cases h3 : sizeOfInt space_add ≥ 2 ^ 31
            · simp only [h3, if_true] at h
              cases h
            · simp only [h3, if_false] at h
              rw [ih _ _ walked r h]
              simp only [walkGaps, fillGaps, if_true, if_false, hr]
              simp
      · simp only [hc, if_false] at h
        have := ih _ _ walked r h
        rw [this]
        simp only [walkGaps, hc, if_false, fillGaps_cons_of_ne c cs _ hc]
        simp

theorem walkStores_fillGaps (W : Nat) (s : Line) (walked : List Char)
    (h : walkStores W s = .ok walked) :
    walked = fillGaps s (walkGaps (spaceAdd W s) s (spaceRem W s)) := by
  unfold walkStores at h
  split at h
  · cases h
  · rename_i w r hw
    simp only [Except.ok.injEq] at h
    subst h
    have := justifyWalk_fillGaps W _ s [] _ _ _ hw
    simpa using this

theorem walkGaps_length (space_add : Int) (s : Line) :
    ∀ space_rem : Int, (walkGaps space_add s space_rem).length = s.count ' ' := by
  induction s with
  | nil => intro space_rem; rfl
  | cons c cs ih =>
    intro space_rem
    by_cases hc : c = ' '
    · subst hc
      simp [walkGaps, ih]
    · have hc' : (' ' : Char) ≠ c := fun h => hc h.symm
      simp [walkGaps, hc, ih, List.count_cons_of_ne hc']

theorem walkGaps_bounds (A : Nat) (hA : A < 2 ^ 31) (s : Line) :
    ∀ space_rem : Int, ∀ g ∈ walkGaps (A : Int) s space_rem, A ≤ g ∧ g ≤ A + 1 := by
  have hsz : sizeOfInt (A : Int) = A := sizeOfInt_natCast A (small_lt_SIZE_MOD A hA)
  have hsz1 : (A + 1) % SIZE_MOD = A + 1 :=
    Nat.mod_eq_of_lt (by simp only [SIZE_MOD]; omega)
  induction s with
  | nil => intro space_rem g hg; cases hg
  | cons c cs ih =>
    intro space_rem g hg
    by_cases hc : c = ' '
    · subst hc
      simp only [walkGaps, if_true, List.mem_cons, hsz, hsz1] at hg
      rcases hg with rfl | hg
      · split <;> omega
      · exact ih _ g hg
    · simp only [walkGaps, hc, if_false] at hg
      exact ih _ g hg

theorem walkGaps_nonpos (A : Nat) (hA : A < 2 ^ 31) (s : Line) :
    ∀ space_rem : Int, space_rem ≤ 0 → ∀ g ∈ walkGaps (A : Int) s space_rem, g = A := by
  have hsz : sizeOfInt (A : Int) = A := sizeOfInt_natCast A (small_lt_SIZE_MOD A hA)
  induction s with
  | nil => intro space_rem _ g hg; cases hg
  | cons c cs ih =>
    intro space_rem hr g hg
    have hpos : ¬ (space_rem > 0) := by omega
    by_cases hc : c = ' '
    · subst hc
      simp only [walkGaps, if_true, List.mem_cons, hpos, if_false, hsz] at hg
      rcases hg with rfl | hg
      · rfl
      · exact ih space_rem hr g hg
    · simp only [walkGaps, hc, if_false] at hg
      exact ih space_rem hr g hg

theorem walkGaps_pairwise (A : Nat) (hA : A < 2 ^ 31) (s : Line) :
    ∀ space_rem : Int,
      (walkGaps (A : Int) s space_rem).Pairwise fun a b => b ≤ a := by
  have hsz : sizeOfInt (A : Int) = A := sizeOfInt_natCast A (small_lt_SIZE_MOD A hA)
  have hsz1 : (A + 1) % SIZE_MOD = A + 1 :=
    Nat.mod_eq_of_lt (by simp only [SIZE_MOD]; omega)
  induction s with
  | nil => intro space_rem; exact List.Pairwise.nil
  | cons c cs ih =>
    intro space_rem
    by_cases hc : c = ' '
    · subst hc
      simp only [walkGaps, if_true]
      refine List.Pairwise.cons ?_ (ih _)
      intro g hg
      by_cases hpos : space_rem > 0
      · have := (walkGaps_bounds A hA cs _ g hg).2
        simp only [hpos, if_true, hsz, hsz1]
        exact this
      · simp only [hpos, if_false, hsz] at hg ⊢
        exact Nat.le_of_eq (walkGaps_nonpos A hA cs space_rem (by omega) g hg)
    · simp only [walkGaps, hc, if_false]
      exact ih _

theorem walkGaps_sum (A : Nat) (hA : A < 2 ^ 31) (s : Line) :
    ∀ R : Nat, (walkGaps (A : Int) s (R : Int)).sum =
      s.count ' ' * A + min R (s.count ' ') := by
  have hsz : sizeOfInt (A : Int) = A := sizeOfInt_natCast A (small_lt_SIZE_MOD A hA)
  have hsz1 : (A + 1) % SIZE_MOD = A + 1 :=
    Nat.mod_eq_of_lt (by simp only [SIZE_MOD]; omega)
  induction s with
  | nil => intro R; simp [walkGaps]
  | cons c cs ih =>
    intro R
    by_cases hc : c = ' '
    · subst hc
      by_cases hR : R = 0
      · subst hR
        have hpos : ¬ (((0 : Nat) : Int) > 0) := by omega
        simp only [walkGaps, if_true, hpos, if_false, List.sum_cons, ih, hsz,
          List.count_cons_self, Nat.add_mul, Nat.one_mul]
        omega
      · have hpos : ((R : Nat) : Int) > 0 := by omega
        have hrem : ((R : Nat) : Int) - 1 = ((R - 1 : Nat) : Int) := by omega
        simp only [walkGaps, if_true, hpos, List.sum_cons, hrem, ih, hsz, hsz1,
          List.count_cons_self, Nat.add_mul, Nat.one_mul]
        omega
    · have hc' : (' ' : Char) ≠ c := fun h => hc h.symm
      simp only [walkGaps, hc, if_false, ih, List.count_cons_of_ne hc']

theorem walkGaps_fill_sum (W : Nat) (s : Line) (hlen : s.length < W) (hW : W < 2 ^ 31)
    (hc : s.count ' ' ≠ 0) :
    (walkGaps (spaceAdd W s) s (spaceRem W s)).sum = W - s.length := by
  have hpos : 0 < s.count ' ' := Nat.pos_of_ne_zero hc
  have hmod : (W - s.length) % s.count ' ' < s.count ' ' := Nat.mod_lt _ hpos
  have hdiv := Nat.div_add_mod (W - s.length) (s.count ' ')
  have hle : (W - s.length) / s.count ' ' ≤ W - s.length := Nat.div_le_self _ _
  rw [spaceAdd_eq W s hlen hW hc, spaceRem_eq W s hlen hW hc,
    walkGaps_sum _ (by omega) s, Nat.min_eq_left (Nat.le_of_lt hmod)]
  omega

/-! ## Arrays whose lines all have the same length -/

theorem TargetWidth_uniform (lines : List Line) (h : lines ≠ []) (W : Nat)
    (hW : ∀ s ∈ lines, s.length = W) : TargetWidth lines = W := by
  obtain ⟨s, hs, hlen⟩ := TargetWidth_attained lines h
  rw [← hlen]
  exact hW s hs

theorem map_eq_self_of_forall {α : Type} (f : α → α) (l : List α)
    (h : ∀ a ∈ l, f a = a) : l.map f = l := by
  induction l with
  | nil => rfl
  | cons a l ih =>
    rw [List.map_cons, h a (List.mem_cons_self _ _),
      ih fun b hb => h b (List.mem_cons_of_mem _ hb)]

theorem Right_uniform (lines : List Line) (h : lines ≠ []) (hcount : lines.length < 2 ^ 31)
    (W : Nat) (hW : ∀ s ∈ lines, s.length = W) (hsmall : W < 2 ^ 31) :
    Right lines = .ok lines := by
  rw [Right_eq lines h hcount (fun s hs => by rw [hW s hs]; exact hsmall),
    TargetWidth_uniform lines h W hW]
  congr 1
  apply map_eq_self_of_forall
  intro s hs
  simp [spaces, hW s hs]

theorem Center_uniform (lines : List Line) (h : lines ≠ []) (hcount : lines.length < 2 ^ 31)
    (W : Nat) (hW : ∀ s ∈ lines, s.length = W) (hsmall : W < 2 ^ 31) :
    Center lines = .ok lines := by
  rw [Center_eq lines h hcount (fun s hs => by rw [hW s hs]; exact hsmall),
    TargetWidth_uniform lines h W hW]
  congr 1
  apply map_eq_self_of_forall
  intro s hs
  simp [spaces, hW s hs]

theorem Justify_uniform (lines : List Line) (h : lines ≠ []) (hcount : lines.length < 2 ^ 31)
    (W : Nat) (hW : ∀ s ∈ lines, s.length = W) (hsmall : W < 2 ^ 31) :
    Justify lines = .ok lines := by
  rw [Justify_eq lines h hcount (fun s hs => by rw [hW s hs]; exact hsmall),
    TargetWidth_uniform lines h W hW]
  congr 1
  apply map_eq_self_of_forall
  intro s hs
  simp [justified, hW s hs]

theorem map_ne_nil_of_ne_nil {α β : Type} (f : α → β) (l : List α) (h : l ≠ []) :
    l.map f ≠ [] := by
  cases l with
  | nil => exact absurd rfl h
  | cons a l => simp

/-! ## `Justify` only inserts spaces -/

theorem filter_replicate_space (n : Nat) :
    (List.replicate n ' ').filter (fun c => decide (c ≠ ' ')) = [] := by
  induction n with
  | zero => rfl
  | succ n ih => simp [List.replicate_succ]

theorem distribute_filter (baseGap extraGaps : Nat) (s : Line) :
    ∀ k : Nat, (distribute baseGap extraGaps k s).filter (fun c => decide (c ≠ ' ')) =
      s.filter (fun c => decide (c ≠ ' ')) := by
  induction s with
  | nil => intro k; rfl
  | cons c cs ih =>
    intro k
    by_cases hc : c = ' '
    · subst hc
      simp only [distribute, if_true, List.filter_append, filter_replicate_space, ih,
        List.nil_append]
      simp
    · have hd : decide (c ≠ ' ') = true := decide_eq_true hc
      simp only [distribute, hc, if_false, List.filter_cons, hd, if_true, ih]

theorem distribute_sublist (baseGap extraGaps : Nat) (s : Line) :
    ∀ k : Nat, s.Sublist (distribute baseGap extraGaps k s) := by
  induction s with
  | nil => intro k; exact List.Sublist.slnil
  | cons c cs ih =>
    intro k
    by_cases hc : c = ' '
    · subst hc
      have hn : 1 + baseGap + (if k < extraGaps then 1 else 0) =
          (baseGap + (if k < extraGaps then 1 else 0)) + 1 := by omega
      simp only [distribute, if_true]
      rw [hn, List.replicate_succ, List.cons_append]
      exact List.Sublist.cons₂ _ (List.sublist_append_of_sublist_right (ih _))
    · simp only [distribute, hc, if_false]
      exact List.Sublist.cons₂ _ (ih _)

theorem justified_filter (W : Nat) (s : Line) :
    (justified W s).filter (fun c => decide (c ≠ ' ')) =
      s.filter (fun c => decide (c ≠ ' ')) := by
  unfold justified
  by_cases hW : W ≤ s.length
  · simp [hW]
  · by_cases hc : s.count ' ' = 0
    · simp only [hW, hc, if_false, if_true, spaces, List.filter_append,
        filter_replicate_space, List.append_nil]
    · simp only [hW, hc, if_false]
      exact distribute_filter _ _ s 0

theorem justified_sublist (W : Nat) (s : Line) : s.Sublist (justified W s) := by
  unfold justified
  by_cases hW : W ≤ s.length
  · simp [hW]
  · by_cases hc : s.count ' ' = 0
    · simp only [hW, hc, if_false, if_true]
      exact List.sublist_append_left _ _
    · simp only [hW, hc, if_false]
      exact distribute_sublist _ _ s 0

/-! ## The second loops, slot by slot -/

theorem rightLoop_slots (W : Nat) (lines : List Line) :
    ∀ out, rightLoop W lines = .ok out →
      out.length = lines.length ∧
      ∀ (i : Nat) (hi : i < lines.length),
        ∃ o, out[i]? = some o ∧ rightLine W lines[i] = .ok o := by
  induction lines with
  | nil =>
    intro out h
    simp only [rightLoop, Except.ok.injEq] at h
    subst h
    exact ⟨rfl, fun i hi => absurd hi (Nat.not_lt_zero _)⟩
  | cons s rest ih =>
    intro out h
    rw [rightLoop] at h
    cases hs : rightLine W s with
    | error e =>
      rw [hs] at h
      cases h
    | ok p =>
      rw [hs] at h
      cases hr : rightLoop W rest with
      | error e =>
        rw [hr] at h
        cases h
      | ok ps =>
        rw [hr] at h
        simp only [Except.ok.injEq] at h
        subst h
        obtain ⟨hlen, hslots⟩ := ih ps hr
        refine ⟨by simp [hlen], ?_⟩
        intro i hi
        cases i with
        | zero => exact ⟨p, by simp, hs⟩
        | succ j =>
          have hj : j < rest.length := by
            simp only [List.length_cons] at hi
            omega
          obtain ⟨o, ho, hline⟩ := hslots j hj
          exact ⟨o, by simpa using ho, by simpa using hline⟩

theorem centerLoop_slots (W : Nat) (lines : List Line) :
    ∀ out, centerLoop W lines = .ok out →
      out.length = lines.length ∧
      ∀ (i : Nat) (hi : i < lines.length),
        ∃ o, out[i]? = some o ∧ centerLine W lines[i] = .ok o := by
  induction lines with
  | nil =>
    intro out h
    simp only [centerLoop, Except.ok.injEq] at h
    subst h
    exact ⟨rfl, fun i hi => absurd hi (Nat.not_lt_zero _)⟩
  | cons s rest ih =>
    intro out h
    rw [centerLoop] at h
    cases hs : centerLine W s with
    | error e =>
      rw [hs] at h
      cases h
    | ok p =>
      rw [hs] at h
      cases hr : centerLoop W rest with
      | error e =>
        rw [hr] at h
        cases h
      | ok ps =>
        rw [hr] at h
        simp only [Except.ok.injEq] at h
        subst h
        obtain ⟨hlen, hslots⟩ := ih ps hr
        refine ⟨by simp [hlen], ?_⟩
        intro i hi
        cases i with
        | zero => exact ⟨p, by simp, hs⟩
        | succ j =>
          have hj : j < rest.length := by
            simp only [List.length_cons] at hi
            omega
          obtain ⟨o, ho, hline⟩ := hslots j hj
          exact ⟨o, by simpa using ho, by simpa using hline⟩

theorem justifyLoop_slots (W : Nat) (lines : List Line) :
    ∀ out, justifyLoop W lines = .ok out →
      out.length = lines.length ∧
      ∀ (i : Nat) (hi : i < lines.length),
        ∃ o, out[i]? = some o ∧ justifyLine W lines[i] = .ok o := by
  induction lines with
  | nil =>
    intro out h
    simp only [justifyLoop, Except.ok.injEq] at h
    subst h
    exact ⟨rfl, fun i hi => absurd hi (Nat.not_lt_zero _)⟩
  | cons s rest ih =>
    intro out h
    rw [justifyLoop] at h
    cases hs : justifyLine W s with
    | error e =>
      rw [hs] at h
      cases h
    | ok p =>
      rw [hs] at h
      cases hr : justifyLoop W rest with
      | error e =>
        rw [hr] at h
        cases h
      | ok ps =>
        rw [hr] at h
        simp only [Except.ok.injEq] at h
        subst h
        obtain ⟨hlen, hslots⟩ := ih ps hr
        refine ⟨by simp [hlen], ?_⟩
        intro i hi
        cases i with
        | zero => exact ⟨p, by simp, hs⟩
        | succ j =>
          have hj : j < rest.length := by
            simp only [List.length_cons] at hi
            omega
          obtain ⟨o, ho, hline⟩ := hslots j hj
          exact ⟨o, by simpa using ho, by simpa using hline⟩

theorem Right_slots (lines : List Line) (out : List Line) (h : Right lines = .ok out) :
    out.length = lines.length ∧
    ∀ (i : Nat) (hi : i < lines.length),
      ∃ o, out[i]? = some o ∧ rightLine (TargetWidth lines) lines[i] = .ok o := by
  rw [Right] at h
  cases hfp : firstPass lines with
  | error e =>
    rw [hfp] at h
    cases h
  | ok W =>
    rw [hfp] at h
    rw [← firstPass_ok lines W hfp]
    exact rightLoop_slots _ lines out h

theorem Center_slots (lines : List Line) (out : List Line) (h : Center lines = .ok out) :
    out.length = lines.length ∧
    ∀ (i : Nat) (hi : i < lines.length),
      ∃ o, out[i]? = some o ∧ centerLine (TargetWidth lines) lines[i] = .ok o := by
  rw [Center] at h
  cases hfp : firstPass lines with
  | error e =>
    rw [hfp] at h
    cases h
  | ok W =>
    rw [hfp] at h
    rw [← firstPass_ok lines W hfp]
    exact centerLoop_slots _ lines out h

theorem Justify_slots (lines : List Line) (out : List Line) (h : Justify lines = .ok out) :
    out.length = lines.length ∧
    ∀ (i : Nat) (hi : i < lines.length),
      ∃ o, out[i]? = some o ∧ justifyLine (TargetWidth lines) lines[i] = .ok o := by
  rw [Justify] at h
  cases hfp : firstPass lines with
  | error e =>
    rw [hfp] at h
    cases h
  | ok W =>
    rw [hfp] at h
    rw [← firstPass_ok lines W hfp]
    exact justifyLoop_slots _ lines out h

/-! ## The `switch` -/

theorem alignSwitch_nil_fault (choice : Int) (h : choice = 2 ∨ choice = 3 ∨ choice = 4) :
    alignSwitch choice [] = .error .nullRead := by
  rcases h with rfl | rfl | rfl <;> rfl

theorem alignSwitch_other (choice : Int) (lines : List Line)
    (h2 : choice ≠ 2) (h3 : choice ≠ 3) (h4 : choice ≠ 4) :
    alignSwitch choice lines =
      .ok { invalidReported := decide (choice ≠ 1), par := lines } := by
  by_cases h1 : choice = 1
  · simp [alignSwitch, h1]
  · simp [alignSwitch, h1, h2, h3, h4]

theorem alignSwitch_right (lines : List Line) (h : lines ≠ [])
    (hcount : lines.length < 2 ^ 31) (hsmall : ∀ s ∈ lines, s.length < 2 ^ 31) :
    alignSwitch 2 lines =
      .ok ⟨false, lines.map fun s => spaces (TargetWidth lines - s.length) ++ s⟩ := by
  simp [alignSwitch, Right_eq lines h hcount hsmall]

theorem alignSwitch_center (lines : List Line) (h : lines ≠ [])
    (hcount : lines.length < 2 ^ 31) (hsmall : ∀ s ∈ lines, s.length < 2 ^ 31) :
    alignSwitch 3 lines =
      .ok ⟨false, lines.map fun s => spaces ((TargetWidth lines - s.length) / 2) ++ s ++
        spaces (TargetWidth lines - s.length - (TargetWidth lines - s.length) / 2)⟩ := by
  simp [alignSwitch, Center_eq lines h hcount hsmall]

theorem alignSwitch_justify (lines : List Line) (h : lines ≠ [])
    (hcount : lines.length < 2 ^ 31) (hsmall : ∀ s ∈ lines, s.length < 2 ^ 31) :
    alignSwitch 4 lines = .ok ⟨false, lines.map (justified (TargetWidth lines))⟩ := by
  simp [alignSwitch, Justify_eq lines h hcount hsmall]

theorem alignSwitch_slots (choice : Int) (lines : List Line) (r : Switched)
    (h : alignSwitch choice lines = .ok r) :
    r.par.length = lines.length ∧
    ∀ (i : Nat) (hi : i < lines.length),
      ∃ o, r.par[i]? = some o ∧ slotOf choice (TargetWidth lines) lines[i] = .ok o := by
  by_cases h2 : choice = 2
  · subst h2
    simp only [alignSwitch, show ¬ ((2 : Int) = 1) by decide, if_false, if_true] at h
    cases hR : Right lines with
    | error e => rw [hR] at h; cases h
    | ok out =>
      rw [hR] at h
      simp only [Except.ok.injEq] at h
      subst h
      simpa [slotOf] using Right_slots lines out hR
  by_cases h3 : choice = 3
  · subst h3
    simp only [alignSwitch, show ¬ ((3 : Int) = 1) by decide, show ¬ ((3 : Int) = 2) by decide,
      if_false, if_true] at h
    cases hR : Center lines with
    | error e => rw [hR] at h; cases h
    | ok out =>
      rw [hR] at h
      simp only [Except.ok.injEq] at h
      subst h
      simpa [slotOf] using Center_slots lines out hR
  by_cases h4 : choice = 4
  · subst h4
    simp only [alignSwitch, show ¬ ((4 : Int) = 1) by decide, show ¬ ((4 : Int) = 2) by decide,
      show ¬ ((4 : Int) = 3) by decide, if_false, if_true] at h
    cases hR : Justify lines with
    | error e => rw [hR] at h; cases h
    | ok out =>
      rw [hR] at h
      simp only [Except.ok.injEq] at h
      subst h
      simpa [slotOf] using Justify_slots lines out hR
  · rw [alignSwitch_other choice lines h2 h3 h4] at h
    simp only [Except.ok.injEq] at h
    subst h
    refine ⟨rfl, ?_⟩
    intro i hi
    exact ⟨lines[i], List.getElem?_eq_getElem hi, by simp [slotOf, h2, h3, h4]⟩

theorem alignSwitch_returns (choice : Int) (lines : List Line)
    (h : (choice ≠ 2 ∧ choice ≠ 3 ∧ choice ≠ 4) ∨
      (lines ≠ [] ∧ lines.length < 2 ^ 31 ∧ ∀ s ∈ lines, s.length < 2 ^ 31)) :
    ∃ r, alignSwitch choice lines = .ok r := by
  by_cases h2 : choice = 2
  · subst h2
    rcases h with h | ⟨hne, hcount, hsmall⟩
    · exact absurd rfl h.1
    · exact ⟨_, alignSwitch_right lines hne hcount hsmall⟩
  by_cases h3 : choice = 3
  · subst h3
    rcases h with h | ⟨hne, hcount, hsmall⟩
    · exact absurd rfl h.2.1
    · exact ⟨_, alignSwitch_center lines hne hcount hsmall⟩
  by_cases h4 : choice = 4
  · subst h4
    rcases h with h | ⟨hne, hcount, hsmall⟩
    · exact absurd rfl h.2.2
    · exact ⟨_, alignSwitch_justify lines hne hcount hsmall⟩
  · exact ⟨_, alignSwitch_other choice lines h2 h3 h4⟩

/-! ## `main` -/

theorem mainPrinted_right (read unused pastEnd : List Line) (h : read ≠ [])
    (hcount : (read ++ unused ++ pastEnd).length < 2 ^ 31)
    (hsmall : ∀ s ∈ read ++ unused ++ pastEnd, s.length < 2 ^ 31) :
    mainPrinted 2 read unused pastEnd =
      .ok (read.map fun s =>
        spaces (TargetWidth (read ++ unused ++ pastEnd) - s.length) ++ s) := by
  have hne : read ++ unused ++ pastEnd ≠ [] := by
    cases read with
    | nil => exact absurd rfl h
    | cons a l => simp
  have hlen : read.length = (read.map fun s =>
      spaces (TargetWidth (read ++ unused ++ pastEnd) - s.length) ++ s).length := by simp
  rw [mainPrinted, alignSwitch_right _ hne hcount hsmall]
  simp only [List.append_assoc, List.map_append]
  rw [hlen]
  simp only [List.append_assoc] at *
  rw [List.take_left]

/-! ## Lines of `2^31` bytes and more -/

theorem letters_length (n : Nat) : (letters n).length = n := by
  simp only [letters, List.length_replicate]

theorem TargetWidth_wide (short : List Line) (n : Nat) (h : ∀ s ∈ short, s.length ≤ n) :
    TargetWidth (short ++ [letters n]) = n := by
  induction short with
  | nil =>
    show max (letters n).length 0 = n
    rw [letters_length]
    exact Nat.max_eq_left (Nat.zero_le _)
  | cons s rest ih =>
    show max s.length (TargetWidth (rest ++ [letters n])) = n
    rw [ih fun t ht => h t (List.mem_cons_of_mem _ ht)]
    exact Nat.max_eq_right (h s (List.mem_cons_self _ _))

theorem Right_head_fault (s : Line) (rest : List Line) (W : Nat) (e : Fault)
    (hcount : (s :: rest).length < 2 ^ 31)
    (hW : TargetWidth (s :: rest) = W) (h : rightLine W s = .error e) :
    Right (s :: rest) = .error e := by
  rw [Right, firstPass_eq _ (List.cons_ne_nil _ _) hcount, hW]
  simp only [rightLoop, h]

theorem Center_head_fault (s : Line) (rest : List Line) (W : Nat) (e : Fault)
    (hcount : (s :: rest).length < 2 ^ 31)
    (hW : TargetWidth (s :: rest) = W) (h : centerLine W s = .error e) :
    Center (s :: rest) = .error e := by
  rw [Center, firstPass_eq _ (List.cons_ne_nil _ _) hcount, hW]
  simp only [centerLoop, h]

theorem Justify_head_fault (s : Line) (rest : List Line) (W : Nat) (e : Fault)
    (hcount : (s :: rest).length < 2 ^ 31)
    (hW : TargetWidth (s :: rest) = W) (h : justifyLine W s = .error e) :
    Justify (s :: rest) = .error e := by
  rw [Justify, firstPass_eq _ (List.cons_ne_nil _ _) hcount, hW]
  simp only [justifyLoop, h]

theorem Right_wide : Right [[], letters (2 ^ 31)] = .error .overrun :=
  Right_head_fault _ _ (2 ^ 31) _ (by decide) (TargetWidth_wide [[]] (2 ^ 31) (by decide)) (by decide)

theorem Right_wide_x : Right [['x'], letters (2 ^ 31 + 1)] = .error .overrun :=
  Right_head_fault _ _ (2 ^ 31 + 1) _ (by decide) (TargetWidth_wide [['x']] (2 ^ 31 + 1) (by decide))
    (by decide)

theorem Center_wide : Center [[], letters (2 ^ 32)] = .error .overrun :=
  Center_head_fault _ _ (2 ^ 32) _ (by decide) (TargetWidth_wide [[]] (2 ^ 32) (by decide)) (by decide)

theorem Justify_wide_two_spaces :
    Justify [[' ', ' '], letters (2 ^ 31 + 2)] = .error .intOverflow :=
  Justify_head_fault _ _ (2 ^ 31 + 2) _ (by decide)
    (TargetWidth_wide [[' ', ' ']] (2 ^ 31 + 2) (by decide)) (by decide)

theorem Justify_wide_abc :
    Justify ["a b c".toList, letters (2 ^ 31 + 5)] = .error .intOverflow :=
  Justify_head_fault _ _ (2 ^ 31 + 5) _ (by decide)
    (TargetWidth_wide ["a b c".toList] (2 ^ 31 + 5) (by decide)) (by decide)

theorem Justify_wide_xyz :
    Justify ["x  y".toList, letters (2 ^ 31 + 4)] = .error .intOverflow :=
  Justify_head_fault _ _ (2 ^ 31 + 4) _ (by decide)
    (TargetWidth_wide ["x  y".toList] (2 ^ 31 + 4) (by decide)) (by decide)

theorem Justify_wide_three :
    Justify [[' ', ' '], ['a'], letters (2 ^ 31 + 2)] = .error .intOverflow :=
  Justify_head_fault _ _ (2 ^ 31 + 2) _ (by decide)
    (TargetWidth_wide [[' ', ' '], ['a']] (2 ^ 31 + 2) (by decide)) (by decide)

/-! ## Arrays of `2^31` lines and more -/

theorem emptyLines_length (n : Nat) : (emptyLines n).length = n := by
  simp only [emptyLines, List.length_replicate]

theorem emptyLines_ne_nil : emptyLines (2 ^ 31) ≠ [] := by
  intro h
  have hl := congrArg List.length h
  rw [emptyLines_length, List.length_nil] at hl
  omega

theorem TargetWidth_emptyLines (n : Nat) : TargetWidth (emptyLines n) = 0 := by
  induction n with
  | zero => rfl
  | succ n ih =>
    show max ([] : Line).length (TargetWidth (emptyLines n)) = 0
    rw [ih]
    rfl

theorem TargetWidth_append_emptyLines (l : List Line) (n : Nat) :
    TargetWidth (l ++ emptyLines n) = TargetWidth l := by
  induction l with
  | nil => rw [List.nil_append, TargetWidth_emptyLines, TargetWidth_nil]
  | cons s rest ih =>
    show max s.length (TargetWidth (rest ++ emptyLines n)) = max s.length (TargetWidth rest)
    rw [ih]

theorem length_append_emptyLines_ge (l : List Line) (n : Nat) :
    (l ++ emptyLines n).length ≥ n := by
  rw [List.length_append, emptyLines_length]
  exact Nat.le_add_left _ _

theorem Right_many (lines : List Line) (h : lines.length ≥ 2 ^ 31) :
    Right lines = .error .intOverflow := by
  rw [Right, firstPass_many lines h]

theorem Center_many (lines : List Line) (h : lines.length ≥ 2 ^ 31) :
    Center lines = .error .intOverflow := by
  rw [Center, firstPass_many lines h]

theorem Justify_many (lines : List Line) (h : lines.length ≥ 2 ^ 31) :
    Justify lines = .error .intOverflow := by
  rw [Justify, firstPass_many lines h]

theorem Right_emptyLines : Right (emptyLines (2 ^ 31)) = .error .intOverflow :=
  Right_many _ (Nat.le_of_eq (emptyLines_length _).symm)

theorem Center_emptyLines : Center (emptyLines (2 ^ 31)) = .error .intOverflow :=
  Center_many _ (Nat.le_of_eq (emptyLines_length _).symm)

theorem Justify_emptyLines : Justify (emptyLines (2 ^ 31)) = .error .intOverflow :=
  Justify_many _ (Nat.le_of_eq (emptyLines_length _).symm)

theorem alignSwitch_right_fault (lines : List Line) (e : Fault)
    (h : Right lines = .error e) : alignSwitch 2 lines = .error e := by
  simp [alignSwitch, h]

/-! ## The claims -/

/-- C1 as stated fails: on the two lines made of the empty line and a line of `2^31`
letters, `Right` computes the `int space_counter` `-2^31` for the empty line, `memset`
runs past `padded_str`, and no output line of length TargetWidth exists; and on an array
of `2^31` lines the `int` index `i` of the first pass passes `INT_MAX`. -/
theorem length_invariant_fails_on_wide_line :
    ([[], letters (2 ^ 31)] ≠ ([] : List Line) ∧
      Right [[], letters (2 ^ 31)] = .error .overrun ∧
      ¬ ∃ out, Right [[], letters (2 ^ 31)] = .ok out ∧
        ∀ o ∈ out, o.length = TargetWidth [[], letters (2 ^ 31)]) ∧
    (emptyLines (2 ^ 31) ≠ [] ∧ Right (emptyLines (2 ^ 31)) = .error .intOverflow) :=
  ⟨⟨List.cons_ne_nil _ _, Right_wide, fun ⟨_, h, _⟩ => by rw [Right_wide] at h; cases h⟩,
    emptyLines_ne_nil, Right_emptyLines⟩

/-- C1, amended: for a non-empty array of fewer than `2^31` lines, each shorter than
`2^31` bytes, each of `Right`, `Center` and `Justify` returns, and every line it returns
has length exactly the maximum length of the input lines. -/
theorem length_invariant (lines : List Line) (h : lines ≠ [])
    (hcount : lines.length < 2 ^ 31) (hsmall : ∀ s ∈ lines, s.length < 2 ^ 31) :
    (∃ out, Right lines = .ok out ∧ ∀ o ∈ out, o.length = TargetWidth lines) ∧
    (∃ out, Center lines = .ok out ∧ ∀ o ∈ out, o.length = TargetWidth lines) ∧
    (∃ out, Justify lines = .ok out ∧ ∀ o ∈ out, o.length = TargetWidth lines) := by
  have hle := length_le_TargetWidth lines
  refine ⟨⟨_, Right_eq lines h hcount hsmall, ?_⟩, ⟨_, Center_eq lines h hcount hsmall, ?_⟩,
    ⟨_, Justify_eq lines h hcount hsmall, ?_⟩⟩
  · intro o ho
    obtain ⟨s, hs, rfl⟩ := List.mem_map.mp ho
    have := hle s hs
    simp [spaces]; omega
  · intro o ho
    obtain ⟨s, hs, rfl⟩ := List.mem_map.mp ho
    have := hle s hs
    simp [spaces]; omega
  · intro o ho
    obtain ⟨s, hs, rfl⟩ := List.mem_map.mp ho
    exact justified_length _ s (hle s hs)

/-- Witness of C1 on the two lines `cat` and `elephant`. -/
theorem length_invariant_witness :
    ["cat".toList, "elephant".toList] ≠ [] ∧ ["cat".toList, "elephant".toList].length < 2 ^ 31 ∧
    (∀ s ∈ ["cat".toList, "elephant".toList], s.length < 2 ^ 31) ∧
    (∃ out, Right ["cat".toList, "elephant".toList] = .ok out ∧
      ∀ o ∈ out, o.length = TargetWidth ["cat".toList, "elephant".toList]) :=
  ⟨by decide, by decide, by decide,
    (length_invariant ["cat".toList, "elephant".toList] (by decide) (by decide) (by decide)).1⟩

/-- C2 as stated fails: on the two lines `x` and a line of `2^31 + 1` letters, `Right`
runs past `padded_str` while padding `x` and returns no output, so output line `0` is not
`2^31` spaces followed by `x`; and on an array of `2^31` lines the `int` index `i` of the
first pass passes `INT_MAX`. -/
theorem right_content_fails_on_wide_line :
    ([['x'], letters (2 ^ 31 + 1)] ≠ ([] : List Line) ∧
      Right [['x'], letters (2 ^ 31 + 1)] = .error .overrun ∧
      ¬ ∃ out, Right [['x'], letters (2 ^ 31 + 1)] = .ok out ∧
        ∀ (i : Nat) (hi : i < [['x'], letters (2 ^ 31 + 1)].length),
          out[i]? =
            some (List.replicate (TargetWidth [['x'], letters (2 ^ 31 + 1)] -
              [['x'], letters (2 ^ 31 + 1)][i].length) ' ' ++
                [['x'], letters (2 ^ 31 + 1)][i])) ∧
    (emptyLines (2 ^ 31) ≠ [] ∧
      ¬ ∃ out, Right (emptyLines (2 ^ 31)) = .ok out) :=
  ⟨⟨List.cons_ne_nil _ _, Right_wide_x,
      fun ⟨_, h, _⟩ => by rw [Right_wide_x] at h; cases h⟩,
    emptyLines_ne_nil, fun ⟨_, h⟩ => by rw [Right_emptyLines] at h; cases h⟩

/-- C2, amended: for a non-empty array of fewer than `2^31` lines, each shorter than
`2^31` bytes, `Right` returns, and line `i` of its output is
`TargetWidth - length(input[i])` space characters followed by `input[i]` itself. -/
theorem right_content (lines : List Line) (h : lines ≠ [])
    (hcount : lines.length < 2 ^ 31) (hsmall : ∀ s ∈ lines, s.length < 2 ^ 31) :
    ∃ out, Right lines = .ok out ∧
      ∀ (i : Nat) (hi : i < lines.length),
        out[i]? =
          some (List.replicate (TargetWidth lines - lines[i].length) ' ' ++ lines[i]) := by
  refine ⟨_, Right_eq lines h hcount hsmall, ?_⟩
  intro i hi
  rw [getElem?_map_of_lt _ lines i hi]
  rfl

/-- Witness of C2 on the two lines `cat` and `elephant`. -/
theorem right_content_witness :
    ["cat".toList, "elephant".toList] ≠ [] ∧ ["cat".toList, "elephant".toList].length < 2 ^ 31 ∧
    (∀ s ∈ ["cat".toList, "elephant".toList], s.length < 2 ^ 31) ∧
    ∃ out, Right ["cat".toList, "elephant".toList] = .ok out ∧
      ∀ (i : Nat) (hi : i < ["cat".toList, "elephant".toList].length),
        out[i]? =
          some (List.replicate (TargetWidth ["cat".toList, "elephant".toList] -
            ["cat".toList, "elephant".toList][i].length) ' ' ++
              ["cat".toList, "elephant".toList][i]) :=
  ⟨by decide, by decide, by decide,
    right_content ["cat".toList, "elephant".toList] (by decide) (by decide) (by decide)⟩

/-- C3 as stated fails: on the two lines made of the empty line and a line of `2^32`
letters, `Center` computes the `int space_counter` `-2^31` for the empty line (the low 32
bits of `2^31`), the first `memset` runs past `padded_str`, and no output exists; and on
an array of `2^31` lines the `int` index `i` of the first pass passes `INT_MAX`. -/
theorem center_content_fails_on_wide_line :
    ([[], letters (2 ^ 32)] ≠ ([] : List Line) ∧
      Center [[], letters (2 ^ 32)] = .error .overrun ∧
      ¬ ∃ out, Center [[], letters (2 ^ 32)] = .ok out ∧
        ∀ (i : Nat) (hi : i < [[], letters (2 ^ 32)].length),
          out[i]? =
            some (List.replicate ((TargetWidth [[], letters (2 ^ 32)] -
                [[], letters (2 ^ 32)][i].length) / 2) ' ' ++
              [[], letters (2 ^ 32)][i] ++
              List.replicate ((TargetWidth [[], letters (2 ^ 32)] -
                [[], letters (2 ^ 32)][i].length + 1) / 2) ' ')) ∧
    (emptyLines (2 ^ 31) ≠ [] ∧ Center (emptyLines (2 ^ 31)) = .error .intOverflow) :=
  ⟨⟨List.cons_ne_nil _ _, Center_wide, fun ⟨_, h, _⟩ => by rw [Center_wide] at h; cases h⟩,
    emptyLines_ne_nil, Center_emptyLines⟩

/-- C3, amended: for a non-empty array of fewer than `2^31` lines, each shorter than
`2^31` bytes, `Center` returns, and line `i` of its output is `floor(deficit/2)` spaces,
then `input[i]` itself, then `ceil(deficit/2)` spaces, where
`deficit = TargetWidth - length(input[i])`; the lines `cat`, `elephant` give `cat` between
two and three spaces, and `elephant`. -/
theorem center_content (lines : List Line) (h : lines ≠ [])
    (hcount : lines.length < 2 ^ 31) (hsmall : ∀ s ∈ lines, s.length < 2 ^ 31) :
    (∃ out, Center lines = .ok out ∧
      ∀ (i : Nat) (hi : i < lines.length),
        out[i]? =
          some (List.replicate ((TargetWidth lines - lines[i].length) / 2) ' ' ++ lines[i] ++
            List.replicate ((TargetWidth lines - lines[i].length + 1) / 2) ' ')) ∧
    Center ["cat".toList, "elephant".toList] = .ok ["  cat   ".toList, "elephant".toList] := by
  refine ⟨⟨_, Center_eq lines h hcount hsmall, ?_⟩, by decide⟩
  intro i hi
  rw [getElem?_map_of_lt _ lines i hi]
  have hceil : TargetWidth lines - lines[i].length - (TargetWidth lines - lines[i].length) / 2
      = (TargetWidth lines - lines[i].length + 1) / 2 := by omega
  simp only [spaces, hceil]

/-- Witness of C3 on the two lines `cat` and `elephant`. -/
theorem center_content_witness :
    ["cat".toList, "elephant".toList] ≠ [] ∧ ["cat".toList, "elephant".toList].length < 2 ^ 31 ∧
    (∀ s ∈ ["cat".toList, "elephant".toList], s.length < 2 ^ 31) ∧
    ∃ out, Center ["cat".toList, "elephant".toList] = .ok out ∧
      ∀ (i : Nat) (hi : i < ["cat".toList, "elephant".toList].length),
        out[i]? =
          some (List.replicate ((TargetWidth ["cat".toList, "elephant".toList] -
              ["cat".toList, "elephant".toList][i].length) / 2) ' ' ++
            ["cat".toList, "elephant".toList][i] ++
            List.replicate ((TargetWidth ["cat".toList, "elephant".toList] -
              ["cat".toList, "elephant".toList][i].length + 1) / 2) ' ') :=
  ⟨by decide, by decide, by decide,
    (center_content ["cat".toList, "elephant".toList] (by decide) (by decide) (by decide)).1⟩

/-- C4 as stated fails: on the lines `a b c` and a line of `2^31 + 5` letters the line
`a b c` is shorter than TargetWidth and has two space characters, but `space_counter` is
the `int` `-2^31` and `space_add` is `-2^30`, so `spaces` is `2^64 - 2^30`: the loop over
`k` passes `INT_MAX` (on the machine it then stores on, past the end of `padded_str`), and
`Justify` returns no output.  And when `2^31` empty lines follow the lines `a b c` and
`elephant`, the `int` index `i` of the first pass passes `INT_MAX`. -/
theorem justify_distribution_fails_on_wide_line :
    (("a b c".toList).length < TargetWidth ["a b c".toList, letters (2 ^ 31 + 5)] ∧
      1 ≤ ("a b c".toList).count ' ' ∧
      spaceAdd (2 ^ 31 + 5) "a b c".toList = -1073741824 ∧
      Justify ["a b c".toList, letters (2 ^ 31 + 5)] = .error .intOverflow ∧
      ¬ ∃ out, Justify ["a b c".toList, letters (2 ^ 31 + 5)] = .ok out ∧
        out[0]? = some (distribute (2 ^ 31 / 2) (2 ^ 31 % 2) 0 "a b c".toList)) ∧
    (("a b c".toList).length < TargetWidth (["a b c".toList, "elephant".toList] ++ emptyLines (2 ^ 31)) ∧
      Justify (["a b c".toList, "elephant".toList] ++ emptyLines (2 ^ 31)) = .error .intOverflow) :=
  ⟨⟨by rw [show ["a b c".toList, letters (2 ^ 31 + 5)] =
        ["a b c".toList] ++ [letters (2 ^ 31 + 5)] from rfl,
        TargetWidth_wide ["a b c".toList] (2 ^ 31 + 5) (by decide)]; decide,
      by decide, by decide, Justify_wide_abc,
      fun ⟨_, h, _⟩ => by rw [Justify_wide_abc] at h; cases h⟩,
    by rw [TargetWidth_append_emptyLines]; decide,
    Justify_many _ (length_append_emptyLines_ge _ _)⟩

/-- C4, amended: in an array of fewer than `2^31` lines, each shorter than `2^31` bytes, a
line shorter than TargetWidth with `s ≥ 1` space characters is replaced by `Justify` with
the result of the walk that copies every other character and puts `1 + baseGap` spaces,
one more for the first `extraGaps` of them, in the place of each space character, where
`baseGap = deficit / s` and `extraGaps = deficit % s`. -/
theorem justify_distribution (lines : List Line) (i : Nat) (hi : i < lines.length)
    (hcount : lines.length < 2 ^ 31) (hsmall : ∀ s ∈ lines, s.length < 2 ^ 31)
    (hshort : lines[i].length < TargetWidth lines) (hs : 1 ≤ lines[i].count ' ') :
    ∃ out, Justify lines = .ok out ∧
      out[i]? =
        some (distribute ((TargetWidth lines - lines[i].length) / lines[i].count ' ')
          ((TargetWidth lines - lines[i].length) % lines[i].count ' ') 0 lines[i]) := by
  have hne : lines ≠ [] := by
    intro hnil
    subst hnil
    exact absurd hi (Nat.not_lt_zero _)
  refine ⟨_, Justify_eq lines hne hcount hsmall, ?_⟩
  rw [getElem?_map_of_lt _ lines i hi]
  have hW : ¬ (TargetWidth lines ≤ lines[i].length) := Nat.not_le.mpr hshort
  have hc : lines[i].count ' ' ≠ 0 := by omega
  simp only [justified, hW, hc, if_false]

/-- Witness of C4 on the lines `a b c`, `elephant`, at line `0`. -/
theorem justify_distribution_witness :
    ["a b c".toList, "elephant".toList].length < 2 ^ 31 ∧
    (∀ s ∈ ["a b c".toList, "elephant".toList], s.length < 2 ^ 31) ∧
    ["a b c".toList, "elephant".toList][0].length <
        TargetWidth ["a b c".toList, "elephant".toList] ∧
    1 ≤ ["a b c".toList, "elephant".toList][0].count ' ' ∧
    ∃ out, Justify ["a b c".toList, "elephant".toList] = .ok out ∧
      out[0]? =
        some (distribute
          ((TargetWidth ["a b c".toList, "elephant".toList] -
            ["a b c".toList, "elephant".toList][0].length) /
              ["a b c".toList, "elephant".toList][0].count ' ')
          ((TargetWidth ["a b c".toList, "elephant".toList] -
            ["a b c".toList, "elephant".toList][0].length) %
              ["a b c".toList, "elephant".toList][0].count ' ')
          0 ["a b c".toList, "elephant".toList][0]) :=
  ⟨by decide, by decide, by decide, by decide,
    justify_distribution ["a b c".toList, "elephant".toList] 0 (by decide) (by decide) (by decide)
      (by decide) (by decide)⟩

/-- C5 as stated fails: in the array of the lines made of two spaces, of `a`, and of
`2^31 + 2` letters, the line `a` has no space character and is shorter than TargetWidth,
but on the first line `space_add` is the `int` `-2^30`, the loop over `k` passes `INT_MAX`
(on the machine it then stores on, past the end of `padded_str`), and `Justify` returns no
output for `a`.  And when `2^31` empty lines follow the lines `cat` and `elephant`, the
`int` index `i` of the first pass passes `INT_MAX`. -/
theorem justify_single_token_fails_on_wide_line :
    ([[' ', ' '], ['a'], letters (2 ^ 31 + 2)][1]? = some ['a'] ∧
      ['a'].length < TargetWidth [[' ', ' '], ['a'], letters (2 ^ 31 + 2)] ∧
      ' ' ∉ ['a'] ∧
      Justify [[' ', ' '], ['a'], letters (2 ^ 31 + 2)] = .error .intOverflow ∧
      ¬ ∃ out, Justify [[' ', ' '], ['a'], letters (2 ^ 31 + 2)] = .ok out ∧
        out[1]? = some (['a'] ++ List.replicate
          (TargetWidth [[' ', ' '], ['a'], letters (2 ^ 31 + 2)] - ['a'].length) ' ')) ∧
    (("cat".toList).length < TargetWidth (["cat".toList, "elephant".toList] ++ emptyLines (2 ^ 31)) ∧
      ' ' ∉ "cat".toList ∧
      Justify (["cat".toList, "elephant".toList] ++ emptyLines (2 ^ 31)) = .error .intOverflow) :=
  ⟨⟨rfl,
      by rw [show [[' ', ' '], ['a'], letters (2 ^ 31 + 2)] =
        [[' ', ' '], ['a']] ++ [letters (2 ^ 31 + 2)] from rfl,
        TargetWidth_wide [[' ', ' '], ['a']] (2 ^ 31 + 2) (by decide)]; decide,
      by decide, Justify_wide_three,
      fun ⟨_, h, _⟩ => by rw [Justify_wide_three] at h; cases h⟩,
    by rw [TargetWidth_append_emptyLines]; decide, by decide,
    Justify_many _ (length_append_emptyLines_ge _ _)⟩

/-- C5, amended: in an array of fewer than `2^31` lines, each shorter than `2^31` bytes, a
line shorter than TargetWidth without a space character is replaced by `Justify` with the
line followed by `TargetWidth - length` spaces. -/
theorem justify_single_token (lines : List Line) (i : Nat) (hi : i < lines.length)
    (hcount : lines.length < 2 ^ 31) (hsmall : ∀ s ∈ lines, s.length < 2 ^ 31)
    (hshort : lines[i].length < TargetWidth lines) (hs : ' ' ∉ lines[i]) :
    ∃ out, Justify lines = .ok out ∧
      out[i]? =
        some (lines[i] ++ List.replicate (TargetWidth lines - lines[i].length) ' ') := by
  have hne : lines ≠ [] := by
    intro hnil
    subst hnil
    exact absurd hi (Nat.not_lt_zero _)
  refine ⟨_, Justify_eq lines hne hcount hsmall, ?_⟩
  rw [getElem?_map_of_lt _ lines i hi]
  have hW : ¬ (TargetWidth lines ≤ lines[i].length) := Nat.not_le.mpr hshort
  have hc : lines[i].count ' ' = 0 := List.count_eq_zero.mpr hs
  simp only [justified, hW, hc, if_false, if_true, spaces]

/-- Witness of C5 on the lines `cat`, `elephant`, at line `0`. -/
theorem justify_single_token_witness :
    ["cat".toList, "elephant".toList].length < 2 ^ 31 ∧
    (∀ s ∈ ["cat".toList, "elephant".toList], s.length < 2 ^ 31) ∧
    ["cat".toList, "elephant".toList][0].length <
        TargetWidth ["cat".toList, "elephant".toList] ∧
    ' ' ∉ ["cat".toList, "elephant".toList][0] ∧
    ∃ out, Justify ["cat".toList, "elephant".toList] = .ok out ∧
      out[0]? =
        some (["cat".toList, "elephant".toList][0] ++
          List.replicate (TargetWidth ["cat".toList, "elephant".toList] -
            ["cat".toList, "elephant".toList][0].length) ' ') :=
  ⟨by decide, by decide, by decide, by decide,
    justify_single_token ["cat".toList, "elephant".toList] 0 (by decide) (by decide) (by decide)
      (by decide) (by decide)⟩

/-- C6 as stated fails: in the array of the line made of two spaces and a line of
`2^31 + 2` letters, the second line has length TargetWidth, but on the first line
`space_add` is the `int` `-2^30`, the loop over `k` passes `INT_MAX` (on the machine it
then stores on, past the end of `padded_str`), and `Justify` returns no array, so the
second line is not returned unchanged; and on an array of `2^31` empty lines, all of
length TargetWidth, the `int` index `i` of the first pass passes `INT_MAX`. -/
theorem justify_keeps_full_lines_fails_on_wide_line :
    ([[' ', ' '], letters (2 ^ 31 + 2)] ≠ ([] : List Line) ∧
      (letters (2 ^ 31 + 2)).length = TargetWidth [[' ', ' '], letters (2 ^ 31 + 2)] ∧
      Justify [[' ', ' '], letters (2 ^ 31 + 2)] = .error .intOverflow ∧
      ¬ ∃ out, Justify [[' ', ' '], letters (2 ^ 31 + 2)] = .ok out ∧
        out[1]? = some (letters (2 ^ 31 + 2))) ∧
    (emptyLines (2 ^ 31) ≠ [] ∧ TargetWidth (emptyLines (2 ^ 31)) = ([] : Line).length ∧
      Justify (emptyLines (2 ^ 31)) = .error .intOverflow) :=
  ⟨⟨List.cons_ne_nil _ _,
      by rw [show [[' ', ' '], letters (2 ^ 31 + 2)] =
        [[' ', ' ']] ++ [letters (2 ^ 31 + 2)] from rfl,
        TargetWidth_wide [[' ', ' ']] (2 ^ 31 + 2) (by decide), letters_length],
      Justify_wide_two_spaces,
      fun ⟨_, h, _⟩ => by rw [Justify_wide_two_spaces] at h; cases h⟩,
    emptyLines_ne_nil, TargetWidth_emptyLines _, Justify_emptyLines⟩

/-- C6, amended: for a non-empty array of fewer than `2^31` lines, each shorter than
`2^31` bytes, `Justify` returns and leaves every line whose length is TargetWidth as it
is; the single line `solo` comes back unchanged. -/
theorem justify_keeps_full_lines (lines : List Line) (h : lines ≠ [])
    (hcount : lines.length < 2 ^ 31) (hsmall : ∀ s ∈ lines, s.length < 2 ^ 31) :
    (∃ out, Justify lines = .ok out ∧
      ∀ (i : Nat) (hi : i < lines.length),
        lines[i].length = TargetWidth lines → out[i]? = some lines[i]) ∧
    Justify ["solo".toList] = .ok ["solo".toList] := by
  refine ⟨⟨_, Justify_eq lines h hcount hsmall, ?_⟩, by decide⟩
  intro i hi hfull
  rw [getElem?_map_of_lt _ lines i hi]
  simp [justified, hfull]

/-- Witness of C6 on the lines `a b c`, `elephant`. -/
theorem justify_keeps_full_lines_witness :
    ["a b c".toList, "elephant".toList] ≠ [] ∧ ["a b c".toList, "elephant".toList].length < 2 ^ 31 ∧
    (∀ s ∈ ["a b c".toList, "elephant".toList], s.length < 2 ^ 31) ∧
    ∃ out, Justify ["a b c".toList, "elephant".toList] = .ok out ∧
      ∀ (i : Nat) (hi : i < ["a b c".toList, "elephant".toList].length),
        ["a b c".toList, "elephant".toList][i].length =
            TargetWidth ["a b c".toList, "elephant".toList] →
          out[i]? = some ["a b c".toList, "elephant".toList][i] :=
  ⟨by decide, by decide, by decide,
    (justify_keeps_full_lines ["a b c".toList, "elephant".toList] (by decide) (by decide) (by decide)).1⟩

/-- C7 as stated fails: with selector `2` the `switch` returns no array on the array of
the empty line and a line of `2^31` letters, where `Right` runs past `padded_str`, nor on
an array of `2^31` lines, where the `int` index `i` passes `INT_MAX`, nor on the array
with no line, where `Right` reads the string of the NULL slot. -/
theorem order_preservation_fails_without_output :
    alignSwitch 2 [[], letters (2 ^ 31)] = .error .overrun ∧
    alignSwitch 2 (emptyLines (2 ^ 31)) = .error .intOverflow ∧
    alignSwitch 2 [] = .error .nullRead ∧
    ¬ ∃ r, alignSwitch 2 [[], letters (2 ^ 31)] = .ok r ∧
      r.par.length = [[], letters (2 ^ 31)].length :=
  ⟨alignSwitch_right_fault _ _ Right_wide, alignSwitch_right_fault _ _ Right_emptyLines,
    alignSwitch_nil_fault 2 (Or.inl rfl),
    fun ⟨_, h, _⟩ => by rw [alignSwitch_right_fault _ _ Right_wide] at h; cases h⟩

/-- C7, amended: for every mode selector and every array of lines on which the `switch`
returns, the array it leaves has as many lines as the input and its line `i` is what the
selected mode makes of input line `i`; the `switch` returns for every array when the
selector is not one of the three padding modes, and for every non-empty array of fewer
than `2^31` lines, each shorter than `2^31` bytes. -/
theorem order_preservation (choice : Int) (lines : List Line) :
    (∀ r, alignSwitch choice lines = .ok r →
      r.par.length = lines.length ∧
      ∀ (i : Nat) (hi : i < lines.length),
        ∃ o, r.par[i]? = some o ∧ slotOf choice (TargetWidth lines) lines[i] = .ok o) ∧
    (((choice ≠ 2 ∧ choice ≠ 3 ∧ choice ≠ 4) ∨
        (lines ≠ [] ∧ lines.length < 2 ^ 31 ∧ ∀ s ∈ lines, s.length < 2 ^ 31)) →
      ∃ r, alignSwitch choice lines = .ok r) :=
  ⟨fun r hr => alignSwitch_slots choice lines r hr, alignSwitch_returns choice lines⟩

/-- Witness of C7: selector `4` on the lines `a b c`, `elephant`. -/
theorem order_preservation_witness :
    (((4 : Int) ≠ 2 ∧ (4 : Int) ≠ 3 ∧ (4 : Int) ≠ 4) ∨
      (["a b c".toList, "elephant".toList] ≠ [] ∧ ["a b c".toList, "elephant".toList].length < 2 ^ 31 ∧ ∀ s ∈ ["a b c".toList, "elephant".toList], s.length < 2 ^ 31)) ∧
    ∃ r, alignSwitch 4 ["a b c".toList, "elephant".toList] = .ok r ∧
      r.par.length = ["a b c".toList, "elephant".toList].length :=
  ⟨Or.inr ⟨by decide, by decide, by decide⟩,
    Exists.elim ((order_preservation 4 ["a b c".toList, "elephant".toList]).2
        (Or.inr ⟨by decide, by decide, by decide⟩))
      fun r hr => ⟨r, hr,
        ((order_preservation 4 ["a b c".toList, "elephant".toList]).1 r hr).1⟩⟩

/-- C8 as stated fails: on the lines `cat`, `elephant` the output of `Right` is not
four spaces followed by `cat`, and `elephant`. -/
theorem right_scenario_four_spaces_fails :
    Right ["cat".toList, "elephant".toList] ≠
      .ok ["    cat".toList, "elephant".toList] := by
  decide

/-- C8, amended: on the lines `cat`, `elephant` TargetWidth is `8` and the output of
`Right` is five spaces followed by `cat`, and `elephant`. -/
theorem right_scenario :
    TargetWidth ["cat".toList, "elephant".toList] = 8 ∧
    Right ["cat".toList, "elephant".toList] =
      .ok ["     cat".toList, "elephant".toList] ∧
    "     cat".toList = List.replicate 5 ' ' ++ "cat".toList := by
  decide

/-- C9 as stated fails: on the lines `a b c`, `elephant` the output of `Justify` is not
`a`, three spaces, `b`, one space, `c`, one space, and `elephant`. -/
theorem justify_scenario_trailing_space_fails :
    Justify ["a b c".toList, "elephant".toList] ≠
      .ok ["a   b c ".toList, "elephant".toList] := by
  decide

/-- C9, amended: on the lines `a b c`, `elephant` the output of `Justify` is `a`, three
spaces, `b`, two spaces, `c`, and `elephant`. -/
theorem justify_scenario :
    Justify ["a b c".toList, "elephant".toList] =
      .ok ["a   b  c".toList, "elephant".toList] ∧
    "a   b  c".toList =
      'a' :: List.replicate 3 ' ' ++ 'b' :: List.replicate 2 ' ' ++ ['c'] := by
  decide

/-- C10: for every array of lines, the empty one included, and every selector other than
`2`, `3` and `4`, the `switch` returns the array unchanged; the line `Invalid choice.` is
printed exactly when the selector is not `1`. -/
theorem left_identity (choice : Int) (lines : List Line)
    (h2 : choice ≠ 2) (h3 : choice ≠ 3) (h4 : choice ≠ 4) :
    alignSwitch choice lines =
      .ok { invalidReported := decide (choice ≠ 1), par := lines } :=
  alignSwitch_other choice lines h2 h3 h4

/-- Witness of C10: selector `7` on the empty array. -/
theorem left_identity_witness :
    (7 : Int) ≠ 2 ∧ (7 : Int) ≠ 3 ∧ (7 : Int) ≠ 4 ∧
    alignSwitch 7 [] = .ok { invalidReported := decide ((7 : Int) ≠ 1), par := [] } :=
  ⟨by decide, by decide, by decide, left_identity 7 [] (by decide) (by decide) (by decide)⟩

/-- C11, evaluated on the code: on the array with no line, each of `Right`, `Center` and
`Justify` reads the string of the first slot, which is the NULL slot, before any test;
none of them returns the empty array. -/
theorem empty_array_reads_first_slot :
    Right [] = .error .nullRead ∧ Center [] = .error .nullRead ∧
    Justify [] = .error .nullRead ∧
    Right [] ≠ .ok [] ∧ Center [] ≠ .ok [] ∧ Justify [] ≠ .ok [] := by
  decide

/-- C12 as stated fails: for the line of two spaces and the width `2^31 + 4` the line
is shorter than the width and has a space character, but `space_add` is the `int`
`-1073741823` and the `size_t spaces` is `2^64 - 1073741823`: the walk does not stop at
`max_length` bytes, its loop over `k` passes `INT_MAX` after `2^31` stores (and on the
machine stores on, past the end of `padded_str`). -/
theorem walk_fills_width_fails_on_wide_deficit :
    ([' ', ' '] : Line).length < 2 ^ 31 + 4 ∧ ' ' ∈ ([' ', ' '] : Line) ∧
    spaceAdd (2 ^ 31 + 4) [' ', ' '] = -1073741823 ∧
    walkGaps (spaceAdd (2 ^ 31 + 4) [' ', ' ']) [' ', ' '] (spaceRem (2 ^ 31 + 4) [' ', ' ']) =
      [2 ^ 64 - 1073741823, 2 ^ 64 - 1073741823] ∧
    walkStores (2 ^ 31 + 4) [' ', ' '] = .error .intOverflow ∧
    justifyLine (2 ^ 31 + 4) [' ', ' '] = .error .intOverflow := by
  decide

/-- C12, amended: for a width `max_length` (TargetWidth) below `2^31` and a line shorter
than it with at least one space character, the walk of `Justify` stores exactly
`max_length` bytes: no store lands at an index `max_length` or higher, the trailing
`while` loop adds no space, and the stores are the string left in the slot. -/
theorem walk_fills_width (max_length : Nat) (s : Line) (hW : max_length < 2 ^ 31)
    (hshort : s.length < max_length) (hs : ' ' ∈ s) :
    ∃ walked, walkStores max_length s = .ok walked ∧
      walked.length = max_length ∧
      trailingPad max_length walked = 0 ∧
      justifyLine max_length s = .ok walked := by
  have hc : s.count ' ' ≠ 0 := fun h0 => List.count_eq_zero.mp h0 hs
  have hl := distribute_fill_length max_length s hshort hc
  refine ⟨_, walkStores_eq max_length s hshort hW hc, hl, by simp [trailingPad, hl], ?_⟩
  rw [justifyLine_eq max_length s hW]
  have hnle : ¬ (max_length ≤ s.length) := Nat.not_le.mpr hshort
  simp only [justified, hnle, hc, if_false]

/-- Witness of C12: the line `a b c` and width `8`. -/
theorem walk_fills_width_witness :
    (8 : Nat) < 2 ^ 31 ∧ "a b c".toList.length < 8 ∧ ' ' ∈ "a b c".toList ∧
    ∃ walked, walkStores 8 "a b c".toList = .ok walked ∧
      walked.length = 8 ∧
      trailingPad 8 walked = 0 ∧
      justifyLine 8 "a b c".toList = .ok walked :=
  ⟨by decide, by decide, by decide,
    walk_fills_width 8 "a b c".toList (by decide) (by decide) (by decide)⟩

/-- C13 as stated fails: for the line `a b c` and the width `2^31 + 5` the two values of
`spaces` are `2^64 - 2^30` each (from the `int space_add = -2^30`); they do not add up to
the deficit `2^31`, and `Justify` leaves no padded line: the loop over `k` passes
`INT_MAX` (and on the machine stores on, past the end of `padded_str`). -/
theorem gaps_fail_on_wide_deficit :
    "a b c".toList.length < 2 ^ 31 + 5 ∧ ' ' ∈ "a b c".toList ∧
    walkGaps (spaceAdd (2 ^ 31 + 5) "a b c".toList) "a b c".toList
      (spaceRem (2 ^ 31 + 5) "a b c".toList) = [2 ^ 64 - 2 ^ 30, 2 ^ 64 - 2 ^ 30] ∧
    (walkGaps (spaceAdd (2 ^ 31 + 5) "a b c".toList) "a b c".toList
      (spaceRem (2 ^ 31 + 5) "a b c".toList)).sum ≠ 2 ^ 31 + 5 - "a b c".toList.length ∧
    justifyLine (2 ^ 31 + 5) "a b c".toList = .error .intOverflow := by
  decide

/-- C13, amended: for a width `max_length` below `2^31` and a line `Justify` pads that has
at least one space character, the numbers of spaces added after its space characters (the
values of `spaces`, which rebuild the string left in the slot) add up to the deficit, any
two of them differ by at most one, and the number after an earlier space character is
never smaller than the number after a later one. -/
theorem gaps_even_left_biased (max_length : Nat) (s : Line) (hW : max_length < 2 ^ 31)
    (hshort : s.length < max_length) (hs : ' ' ∈ s) :
    ∃ gaps : List Nat,
      gaps = walkGaps (spaceAdd max_length s) s (spaceRem max_length s) ∧
      justifyLine max_length s = .ok (fillGaps s gaps) ∧
      gaps.length = s.count ' ' ∧
      gaps.sum = max_length - s.length ∧
      ∀ (j k : Nat) (hj : j < gaps.length) (hk : k < gaps.length), j ≤ k →
        gaps[k] ≤ gaps[j] ∧ gaps[j] ≤ gaps[k] + 1 := by
  have hc : s.count ' ' ≠ 0 := fun h0 => List.count_eq_zero.mp h0 hs
  have hnle : ¬ (max_length ≤ s.length) := Nat.not_le.mpr hshort
  have hdiv : (max_length - s.length) / s.count ' ' ≤ max_length - s.length :=
    Nat.div_le_self _ _
  have hA : (max_length - s.length) / s.count ' ' < 2 ^ 31 := by omega
  have hstores := walkStores_eq max_length s hshort hW hc
  have hfill := walkStores_fillGaps max_length s _ hstores
  refine ⟨_, rfl, ?_, walkGaps_length _ s _,
    walkGaps_fill_sum max_length s hshort hW hc, ?_⟩
  · rw [justifyLine_eq max_length s hW, ← hfill]
    simp only [justified, hnle, hc, if_false]
  · have hb : ∀ g ∈ walkGaps (spaceAdd max_length s) s (spaceRem max_length s),
        (max_length - s.length) / s.count ' ' ≤ g ∧
          g ≤ (max_length - s.length) / s.count ' ' + 1 := by
      rw [spaceAdd_eq max_length s hshort hW hc]
      exact walkGaps_bounds _ hA s (spaceRem max_length s)
    have hp : (walkGaps (spaceAdd max_length s) s (spaceRem max_length s)).Pairwise
        fun a b => b ≤ a := by
      rw [spaceAdd_eq max_length s hshort hW hc]
      exact walkGaps_pairwise _ hA s (spaceRem max_length s)
    intro j k hj hk hjk
    have hbj := hb _ (List.getElem_mem hj)
    have hbk := hb _ (List.getElem_mem hk)
    refine ⟨?_, by omega⟩
    rcases Nat.lt_or_eq_of_le hjk with hlt | heq
    · exact List.pairwise_iff_getElem.mp hp j k hj hk hlt
    · subst heq
      exact Nat.le_refl _

/-- Witness of C13: the line `a b c` and width `8`. -/
theorem gaps_even_left_biased_witness :
    (8 : Nat) < 2 ^ 31 ∧ "a b c".toList.length < 8 ∧ ' ' ∈ "a b c".toList ∧
    ∃ gaps : List Nat,
      gaps = walkGaps (spaceAdd 8 "a b c".toList) "a b c".toList
        (spaceRem 8 "a b c".toList) ∧
      justifyLine 8 "a b c".toList = .ok (fillGaps "a b c".toList gaps) ∧
      gaps.length = "a b c".toList.count ' ' ∧
      gaps.sum = 8 - "a b c".toList.length ∧
      ∀ (j k : Nat) (hj : j < gaps.length) (hk : k < gaps.length), j ≤ k →
        gaps[k] ≤ gaps[j] ∧ gaps[j] ≤ gaps[k] + 1 :=
  ⟨by decide, by decide, by decide,
    gaps_even_left_biased 8 "a b c".toList (by decide) (by decide) (by decide)⟩

/-- C14 as stated fails: on the array of the empty line and a line of `2^31` letters the
first application of `Right` runs past `padded_str`, so there is no output to which
`Right` could be applied again; and on an array of `2^31` lines the `int` index `i` of the
first pass passes `INT_MAX`. -/
theorem modes_idempotent_fails_on_wide_line :
    ([[], letters (2 ^ 31)] ≠ ([] : List Line) ∧
      ¬ ∃ out, Right [[], letters (2 ^ 31)] = .ok out ∧ Right out = .ok out) ∧
    (emptyLines (2 ^ 31) ≠ [] ∧
      ¬ ∃ out, Right (emptyLines (2 ^ 31)) = .ok out ∧ Right out = .ok out) :=
  ⟨⟨List.cons_ne_nil _ _, fun ⟨_, h, _⟩ => by rw [Right_wide] at h; cases h⟩,
    emptyLines_ne_nil, fun ⟨_, h, _⟩ => by rw [Right_emptyLines] at h; cases h⟩

/-- C14, amended: for a non-empty array of fewer than `2^31` lines, each shorter than
`2^31` bytes, each of `Right`, `Center` and `Justify` returns, and applied to its own
output it returns that output unchanged. -/
theorem modes_idempotent (lines : List Line) (h : lines ≠ [])
    (hcount : lines.length < 2 ^ 31) (hsmall : ∀ s ∈ lines, s.length < 2 ^ 31) :
    (∃ out, Right lines = .ok out ∧ Right out = .ok out) ∧
    (∃ out, Center lines = .ok out ∧ Center out = .ok out) ∧
    (∃ out, Justify lines = .ok out ∧ Justify out = .ok out) := by
  have hle := length_le_TargetWidth lines
  have hTW := TargetWidth_lt lines h _ hsmall
  refine ⟨⟨_, Right_eq lines h hcount hsmall, ?_⟩, ⟨_, Center_eq lines h hcount hsmall, ?_⟩,
    ⟨_, Justify_eq lines h hcount hsmall, ?_⟩⟩
  · refine Right_uniform _ (map_ne_nil_of_ne_nil _ lines h) (by simpa using hcount)
      (TargetWidth lines) ?_ hTW
    intro o ho
    obtain ⟨s, hs, rfl⟩ := List.mem_map.mp ho
    have := hle s hs
    simp [spaces]; omega
  · refine Center_uniform _ (map_ne_nil_of_ne_nil _ lines h) (by simpa using hcount)
      (TargetWidth lines) ?_ hTW
    intro o ho
    obtain ⟨s, hs, rfl⟩ := List.mem_map.mp ho
    have := hle s hs
    simp [spaces]; omega
  · refine Justify_uniform _ (map_ne_nil_of_ne_nil _ lines h) (by simpa using hcount)
      (TargetWidth lines) ?_ hTW
    intro o ho
    obtain ⟨s, hs, rfl⟩ := List.mem_map.mp ho
    exact justified_length _ s (hle s hs)

/-- Witness of C14 on the lines `a b c`, `elephant`. -/
theorem modes_idempotent_witness :
    ["a b c".toList, "elephant".toList] ≠ [] ∧ ["a b c".toList, "elephant".toList].length < 2 ^ 31 ∧
    (∀ s ∈ ["a b c".toList, "elephant".toList], s.length < 2 ^ 31) ∧
    (∃ out, Right ["a b c".toList, "elephant".toList] = .ok out ∧ Right out = .ok out) ∧
    (∃ out, Center ["a b c".toList, "elephant".toList] = .ok out ∧ Center out = .ok out) ∧
    (∃ out, Justify ["a b c".toList, "elephant".toList] = .ok out ∧
      Justify out = .ok out) :=
  ⟨by decide, by decide, by decide,
    modes_idempotent ["a b c".toList, "elephant".toList] (by decide) (by decide) (by decide)⟩

/-- C15 as stated fails: on the array of the line `x  y` (two spaces) and a line of
`2^31 + 4` letters, `space_add` is the `int` `-2^30` on the first line, the loop over `k`
passes `INT_MAX` (on the machine it then stores on, past the end of `padded_str`), and
`Justify` returns no output line at all; and on an array of `2^31` lines the `int` index
`i` of the first pass passes `INT_MAX`. -/
theorem justify_only_inserts_spaces_fails_on_wide_line :
    (["x  y".toList, letters (2 ^ 31 + 4)] ≠ ([] : List Line) ∧
      Justify ["x  y".toList, letters (2 ^ 31 + 4)] = .error .intOverflow ∧
      ¬ ∃ out, Justify ["x  y".toList, letters (2 ^ 31 + 4)] = .ok out ∧
        out.length = ["x  y".toList, letters (2 ^ 31 + 4)].length) ∧
    (emptyLines (2 ^ 31) ≠ [] ∧
      ¬ ∃ out, Justify (emptyLines (2 ^ 31)) = .ok out) :=
  ⟨⟨List.cons_ne_nil _ _, Justify_wide_xyz,
      fun ⟨_, h, _⟩ => by rw [Justify_wide_xyz] at h; cases h⟩,
    emptyLines_ne_nil, fun ⟨_, h⟩ => by rw [Justify_emptyLines] at h; cases h⟩

/-- C15, amended: for a non-empty array of fewer than `2^31` lines, each shorter than
`2^31` bytes, `Justify` returns, and for every index `i` the output line `i` without its
space characters is the input line `i` without its space characters, and the input line
`i` is a subsequence of the output line `i`. -/
theorem justify_only_inserts_spaces (lines : List Line) (h : lines ≠ [])
    (hcount : lines.length < 2 ^ 31) (hsmall : ∀ s ∈ lines, s.length < 2 ^ 31) :
    ∃ out, Justify lines = .ok out ∧ out.length = lines.length ∧
      ∀ (i : Nat) (hi : i < lines.length),
        ∃ o, out[i]? = some o ∧
          o.filter (fun c => decide (c ≠ ' ')) =
            lines[i].filter (fun c => decide (c ≠ ' ')) ∧
          lines[i].Sublist o := by
  refine ⟨_, Justify_eq lines h hcount hsmall, by simp, ?_⟩
  intro i hi
  exact ⟨_, getElem?_map_of_lt _ lines i hi, justified_filter _ _, justified_sublist _ _⟩

/-- Witness of C15 on the lines `a b c`, `elephant`. -/
theorem justify_only_inserts_spaces_witness :
    ["a b c".toList, "elephant".toList] ≠ [] ∧ ["a b c".toList, "elephant".toList].length < 2 ^ 31 ∧
    (∀ s ∈ ["a b c".toList, "elephant".toList], s.length < 2 ^ 31) ∧
    ∃ out, Justify ["a b c".toList, "elephant".toList] = .ok out ∧
      out.length = ["a b c".toList, "elephant".toList].length ∧
      ∀ (i : Nat) (hi : i < ["a b c".toList, "elephant".toList].length),
        ∃ o, out[i]? = some o ∧
          o.filter (fun c => decide (c ≠ ' ')) =
            ["a b c".toList, "elephant".toList][i].filter (fun c => decide (c ≠ ' ')) ∧
          ["a b c".toList, "elephant".toList][i].Sublist o :=
  ⟨by decide, by decide, by decide,
    justify_only_inserts_spaces ["a b c".toList, "elephant".toList] (by decide) (by decide) (by decide)⟩

/-- C16 as stated fails: on the array of the empty line and a line of `2^31` letters the
first pass returns `2^31`, the `size_t` difference for the empty line is `2^31` and does
not wrap, but the `int space_counter` made of it is `-2147483648`, a negative number; and
on an array of `2^31` lines the first pass does not return a `max_length`, its `int`
index `i` passes `INT_MAX`. -/
theorem space_counter_negative_on_wide_line :
    ([[], letters (2 ^ 31)] ≠ ([] : List Line) ∧
      firstPass [[], letters (2 ^ 31)] = .ok (2 ^ 31) ∧
      sizeSub (2 ^ 31) ([] : Line).length = 2 ^ 31 ∧
      spaceCounter (2 ^ 31) ([] : Line).length = -2147483648 ∧
      spaceCounter (2 ^ 31) ([] : Line).length < 0) ∧
    (emptyLines (2 ^ 31) ≠ [] ∧ firstPass (emptyLines (2 ^ 31)) = .error .intOverflow) :=
  ⟨⟨List.cons_ne_nil _ _,
      by rw [firstPass_eq _ (List.cons_ne_nil _ _) (by decide),
        show [[], letters (2 ^ 31)] = [([] : Line)] ++ [letters (2 ^ 31)] from rfl,
        TargetWidth_wide [[]] (2 ^ 31) (by decide)],
      by decide, by decide, by decide⟩,
    emptyLines_ne_nil, firstPass_many _ (Nat.le_of_eq (emptyLines_length _).symm)⟩

/-- C16, amended: for a non-empty array of fewer than `2^31` lines, each shorter than
`2^31` bytes, the first pass returns a `max_length` that is the length of one of the lines
and at least the length of every line; `max_length - current_length` on `size_t` is the
true difference (no wrap), the `int space_counter` is that difference and not negative,
neither `Right` nor `Center` stores outside `padded_str`, and the test
`current_length >= max_length` of `Justify` holds exactly for the lines of length
`max_length`. -/
theorem first_pass_maximum (lines : List Line) (h : lines ≠ [])
    (hcount : lines.length < 2 ^ 31) (hsmall : ∀ s ∈ lines, s.length < 2 ^ 31) :
    ∃ W, firstPass lines = .ok W ∧
      (∃ s ∈ lines, s.length = W) ∧
      (∀ s ∈ lines, s.length ≤ W) ∧
      (∀ s ∈ lines, sizeSub W s.length + s.length = W) ∧
      (∀ s ∈ lines,
        spaceCounter W s.length = ((W - s.length : Nat) : Int) ∧
        0 ≤ spaceCounter W s.length) ∧
      (∀ s ∈ lines, rightLine W s ≠ .error .overrun ∧ centerLine W s ≠ .error .overrun) ∧
      (∀ s ∈ lines, (s.length ≥ W ↔ s.length = W)) := by
  have hle := length_le_TargetWidth lines
  have hTW := TargetWidth_lt lines h _ hsmall
  refine ⟨TargetWidth lines, firstPass_eq lines h hcount, TargetWidth_attained lines h, hle,
    ?_, ?_, ?_, ?_⟩
  · intro s hs
    rw [sizeSub_of_le _ _ (small_lt_SIZE_MOD _ hTW) (hle s hs)]
    exact Nat.sub_add_cancel (hle s hs)
  · intro s hs
    rw [spaceCounter_of_le _ _ hTW (hle s hs)]
    exact ⟨rfl, Int.ofNat_nonneg _⟩
  · intro s hs
    rw [rightLine_eq _ s (hle s hs) hTW, centerLine_eq _ s (hle s hs) hTW]
    exact ⟨fun e => (by cases e), fun e => (by cases e)⟩
  · intro s hs
    have := hle s hs
    constructor <;> intro <;> omega

/-- Witness of C16 on the lines `cat`, `elephant`. -/
theorem first_pass_maximum_witness :
    ["cat".toList, "elephant".toList] ≠ [] ∧ ["cat".toList, "elephant".toList].length < 2 ^ 31 ∧
    (∀ s ∈ ["cat".toList, "elephant".toList], s.length < 2 ^ 31) ∧
    ∃ W, firstPass ["cat".toList, "elephant".toList] = .ok W ∧
      (∃ s ∈ ["cat".toList, "elephant".toList], s.length = W) ∧
      (∀ s ∈ ["cat".toList, "elephant".toList], s.length ≤ W) ∧
      (∀ s ∈ ["cat".toList, "elephant".toList], sizeSub W s.length + s.length = W) ∧
      (∀ s ∈ ["cat".toList, "elephant".toList],
        spaceCounter W s.length = ((W - s.length : Nat) : Int) ∧
        0 ≤ spaceCounter W s.length) ∧
      (∀ s ∈ ["cat".toList, "elephant".toList],
        rightLine W s ≠ .error .overrun ∧ centerLine W s ≠ .error .overrun) ∧
      (∀ s ∈ ["cat".toList, "elephant".toList], (s.length ≥ W ↔ s.length = W)) :=
  ⟨by decide, by decide, by decide,
    first_pass_maximum ["cat".toList, "elephant".toList] (by decide) (by decide) (by decide)⟩

set_option maxRecDepth 100000 in
/-- C17, evaluated on the code: two runs of `main` with choice `2` that read the one line
`cat` and differ only in the unused buffer `par[1]` (empty in the first run, holding
`elephant` in the second; the other unused buffers are empty and the word after the array is
NULL in both) print different lines: `cat` in the first, five spaces and `cat` in the
second, a width that is not the length of the longest line read. -/
theorem main_width_depends_on_unused_slots :
    (List.replicate 99 ([] : Line)).length = MAX_LINES - ["cat".toList].length ∧
    ("elephant".toList :: List.replicate 98 ([] : Line)).length =
      MAX_LINES - ["cat".toList].length ∧
    mainPrinted 2 ["cat".toList] (List.replicate 99 []) [] = .ok ["cat".toList] ∧
    mainPrinted 2 ["cat".toList] ("elephant".toList :: List.replicate 98 []) [] =
      .ok ["     cat".toList] ∧
    TargetWidth ["cat".toList] = 3 := by
  decide

end TextHandler
